import Mathlib

/-!
Shallow embedding of the `geonames-fst` gazetteer search service
(source files `src/geonames/{data,utils,searcher}.rs` and `src/routes/*.rs`).

Modelling conventions:
* Rust `u64` record identifiers become `Nat` (no arithmetic is performed on
  them, only equality and comparison, so no wraparound can occur).
* Rust `String` becomes Lean `String`; Rust's bytewise (UTF-8) string order
  coincides with codepoint-lexicographic order, which is embedded below as
  executable comparisons on `String.data`.
* `f32` latitude/longitude fields are kept symbolically (`FloatRepr`):
  the lenient parser `parse_float_else_nan` either records the raw column
  text or `nan` when the column is absent.  No claim depends on float
  arithmetic.
* `HashMap<u64, GeoNamesEntry>` is modelled as an association list where
  `insert` conses in front and lookup returns the most recent binding,
  which realises the overwrite semantics of `HashMap::insert`.
* The `fst::Map` is modelled as its association list of `(key, ordinal)`
  pairs in insertion (i.e. bytewise key) order; `Map::get` is first-match
  lookup and `Map::search(aut)` streams the accepted keys in key order,
  so it is embedded as a filter over the list.  An `fst::Automaton` is
  abstracted to its acceptance predicate on keys, `String → Bool`.
* Rust indexing panics and `Option::unwrap` are embedded by threading
  `Option`: a `none` result marks a panic of the original code.
* CSV reading is external (`csv` crate); parsers take the already-split
  records, each a `List String` of its tab-separated fields.
-/

namespace GeoFst

/-! ## Bytewise string order (Rust `Ord` on `String`) -/

/-- Strict codepoint-lexicographic order on char lists; equals Rust's
bytewise UTF-8 comparison of the corresponding strings. -/
def charListLt : List Char → List Char → Bool
  | [], [] => false
  | [], _ :: _ => true
  | _ :: _, [] => false
  | a :: as, b :: bs => decide (a < b) || (a == b && charListLt as bs)

/-- Rust `str::cmp` strict order. -/
def strLt (a b : String) : Bool := charListLt a.data b.data

/-- Rust `str::cmp` reflexive order. -/
def strLe (a b : String) : Bool := strLt a b || a == b

/-- Integer three-way comparison (Rust `Ord::cmp` on unsigned integers). -/
def natCmp (a b : Nat) : Ordering :=
  if a < b then .lt else if a = b then .eq else .gt

/-! ## Data model (`src/geonames/data.rs`) -/

/-- Symbolic stand-in for an `f32` value produced by the lenient float
parser: either NaN (column absent) or the raw column text whose parsed
value (NaN on parse failure) the Rust code stores.  No claim inspects the
numeric value. -/
inductive FloatRepr where
  | nan : FloatRepr
  | raw (s : String) : FloatRepr
deriving DecidableEq, Repr

/-- `GeoNamesEntry` of `data.rs` (the Entry Store value), with the four
administrative-division columns as separate fields, exactly as the
constructor in `parse_geonames_file` fills them. -/
structure GeoNamesEntry where
  id : Nat
  name : String
  latitude : FloatRepr
  longitude : FloatRepr
  feature_class : String
  feature_code : String
  country_code : String
  adm1 : String
  adm2 : String
  adm3 : String
  adm4 : String
  elevation : Option Int
deriving DecidableEq, Repr

/-- `MatchType` of `data.rs`: the provenance of a search term. -/
inductive MatchType where
  | Name (id : Nat)
  | AsciiName (id : Nat)
  | PreferredName (id : Nat) (lang : String)
  | ShortName (id : Nat) (lang : String)
  | Colloquial (id : Nat) (lang : String)
  | Historic (id : Nat) (lang : String) (validFrom validTo : String)
  | Alternate (id : Nat) (lang : String)
deriving DecidableEq, Repr

/-- `MatchType::id`: the owning record's identifier. -/
def MatchType.id : MatchType → Nat
  | .Name i => i
  | .AsciiName i => i
  | .PreferredName i _ => i
  | .ShortName i _ => i
  | .Colloquial i _ => i
  | .Historic i _ _ _ => i
  | .Alternate i _ => i

/-- `MatchType::ord`: the fixed priority rank of the provenance kind. -/
def MatchType.rank : MatchType → Nat
  | .Name _ => 0
  | .AsciiName _ => 1
  | .PreferredName _ _ => 2
  | .ShortName _ _ => 3
  | .Colloquial _ _ => 4
  | .Historic _ _ _ _ => 5
  | .Alternate _ _ => 6

/-- `Ord for MatchType`: rank first, then identifier. -/
def MatchType.cmp (a b : MatchType) : Ordering :=
  (natCmp a.rank b.rank).then (natCmp a.id b.id)

/-- `MatchKey` of `data.rs`: matched term plus provenance. -/
structure MatchKey where
  name : String
  typ : MatchType
deriving DecidableEq, Repr

/-- `Ord for MatchKey`: delegates to the provenance only; the term string
does not participate. -/
def MatchKey.cmp (a b : MatchKey) : Ordering := a.typ.cmp b.typ

/-- `GeoNamesSearchResult` of `data.rs`. -/
structure GeoNamesSearchResult where
  key : MatchKey
  entry : GeoNamesEntry
deriving DecidableEq, Repr

/-- `Ord for GeoNamesSearchResult`: compares the match keys. -/
def GeoNamesSearchResult.cmp (a b : GeoNamesSearchResult) : Ordering :=
  a.key.cmp b.key

/-- `GeoNamesSearchResultWithDist` of `data.rs`. -/
structure GeoNamesSearchResultWithDist where
  key : MatchKey
  entry : GeoNamesEntry
  distance : Nat
deriving DecidableEq, Repr

/-- `Ord for GeoNamesSearchResultWithDist`: distance first, then key. -/
def GeoNamesSearchResultWithDist.cmp
    (a b : GeoNamesSearchResultWithDist) : Ordering :=
  (natCmp a.distance b.distance).then (a.key.cmp b.key)

/-! ## Levenshtein distance (the `levenshtein` crate) -/

/-- One inner step of the dynamic-programming row update: walks the second
string and the previous row in lockstep (`diag` = previous row at `j-1`,
head of `prev` after dropping = previous row at `j`, `left` = new row at
`j-1`). -/
def levRowAux : List Char → Char → List Nat → Nat → List Nat
  | [], _, _, _ => []
  | _ :: _, _, [], _ => []
  | _ :: _, _, [_], _ => []
  | b :: bs, a, diag :: above :: rest, left =>
    let cost : Nat := if a = b then 0 else 1
    let cell := Nat.min (above + 1) (Nat.min (left + 1) (diag + cost))
    cell :: levRowAux bs a (above :: rest) cell

/-- Next row of the edit-distance table for character `a` of the first
string. -/
def levNextRow (bs : List Char) (a : Char) (prev : List Nat) : List Nat :=
  let first := prev.headD 0 + 1
  first :: levRowAux bs a prev first

/-- Levenshtein distance between two char lists (row-by-row DP, as the
`levenshtein` crate computes it over `str::chars`). -/
def levenshteinL (a b : List Char) : Nat :=
  (a.foldl (fun row c => levNextRow b c row) (List.range (b.length + 1))).getLastD 0

/-- `levenshtein::levenshtein` on strings. -/
def levenshtein (a b : String) : Nat := levenshteinL a.data b.data

/-! ## Map models -/

/-- Entry Store: `HashMap<u64, GeoNamesEntry>` as an association list,
most recent binding first. -/
abbrev EntryMap := List (Nat × GeoNamesEntry)

/-- `HashMap::insert` (overwrites any previous binding for lookups). -/
def entryInsert (m : EntryMap) (k : Nat) (v : GeoNamesEntry) : EntryMap :=
  (k, v) :: m

/-- `HashMap::get`. -/
def entryGet (m : EntryMap) (k : Nat) : Option GeoNamesEntry :=
  (m.find? (fun kv => kv.1 == k)).map (fun kv => kv.2)

/-- `HashMap::contains_key`. -/
def entryContains (m : EntryMap) (k : Nat) : Bool :=
  (entryGet m k).isSome

/-- The `fst::Map` modelled as its `(key, ordinal)` association list in
bytewise key order. -/
abbrev FstMap := List (String × Nat)

/-- `fst::Map::get`. -/
def mapGet (m : FstMap) (k : String) : Option Nat :=
  (m.find? (fun kv => kv.1 == k)).map (fun kv => kv.2)

/-- Option-valued map over a list: `none` as soon as `f` is `none`
(threads Rust panics/`unwrap`s through a collecting loop). -/
def mapOpt (f : α → Option β) : List α → Option (List β)
  | [] => some []
  | a :: as =>
    match f a, mapOpt f as with
    | some b, some bs => some (b :: bs)
    | _, _ => none

/-! ## Result ordering (`Vec::sort`, a stable sort by `Ord::cmp`) -/

/-- Reflexive order induced by `Ord for GeoNamesSearchResult`. -/
def resultLe (a b : GeoNamesSearchResult) : Prop :=
  a.cmp b ≠ Ordering.gt

instance : DecidableRel resultLe :=
  fun a b => inferInstanceAs (Decidable (_ ≠ _))

/-- Reflexive order induced by `Ord for GeoNamesSearchResultWithDist`. -/
def resultWithDistLe (a b : GeoNamesSearchResultWithDist) : Prop :=
  a.cmp b ≠ Ordering.gt

instance : DecidableRel resultWithDistLe :=
  fun a b => inferInstanceAs (Decidable (_ ≠ _))

/-- `results.sort()` on plain search results: a stable sort by `Ord`
(insertion sort is the canonical stable sort, so it has the same output
as Rust's stable driver). -/
def sortResults (l : List GeoNamesSearchResult) : List GeoNamesSearchResult :=
  List.insertionSort resultLe l

/-- `results.sort()` on distance-carrying search results. -/
def sortResultsWithDist (l : List GeoNamesSearchResultWithDist) :
    List GeoNamesSearchResultWithDist :=
  List.insertionSort resultWithDistLe l

/-! ## The searcher (`src/geonames/searcher.rs`) -/

/-- `GeoNamesSearcher`. -/
structure GeoNamesSearcher where
  map : FstMap
  geonames : EntryMap
  searchMatches : List (List MatchType)
deriving Repr

/-- Expansion of one accepted key's group into search results
(the loop body of `GeoNamesSearcher::search`); `none` marks the panic of
the slice indexing or of `geonames.get(..).unwrap()`. -/
def expandHit (s : GeoNamesSearcher) (k : String) (gnd : Nat) :
    Option (List GeoNamesSearchResult) :=
  match s.searchMatches[gnd]? with
  | none => none
  | some ms =>
    mapOpt (fun typ =>
      (entryGet s.geonames typ.id).map (fun gn => ⟨⟨k, typ⟩, gn⟩)) ms

/-- `GeoNamesSearcher::find`: exact lookup; an absent key yields the
empty result list (`unwrap_or_default`). -/
def GeoNamesSearcher.find (s : GeoNamesSearcher) (query : String) :
    Option (List GeoNamesSearchResult) :=
  match mapGet s.map query with
  | none => some []
  | some gnd => expandHit s query gnd

/-- `GeoNamesSearcher::search`: stream all keys accepted by the automaton,
expand each group, then sort. -/
def GeoNamesSearcher.search (s : GeoNamesSearcher) (aut : String → Bool) :
    Option (List GeoNamesSearchResult) :=
  (mapOpt (fun kv => expandHit s kv.1 kv.2)
      (s.map.filter (fun kv => aut kv.1))).map
    (fun rss => sortResults rss.flatten)

/-- The distance filter of `search_with_dist`: a hit is skipped exactly
when `max_dist` is `Some d` with `d > 0` and the distance exceeds `d`. -/
def keepByDist (max_dist : Option Nat) (dist : Nat) : Bool :=
  match max_dist with
  | some d => !(decide (0 < d) && decide (d < dist))
  | none => true

/-- Expansion of one accepted key's group into distance-carrying results
(the loop body of `GeoNamesSearcher::search_with_dist`). -/
def expandHitWithDist (s : GeoNamesSearcher) (k : String) (gnd : Nat)
    (dist : Nat) : Option (List GeoNamesSearchResultWithDist) :=
  match s.searchMatches[gnd]? with
  | none => none
  | some ms =>
    mapOpt (fun typ =>
      (entryGet s.geonames typ.id).map (fun gn => ⟨⟨k, typ⟩, gn, dist⟩)) ms

/-- `GeoNamesSearcher::search_with_dist`: stream accepted keys, compute
the Levenshtein distance of each to the raw query, drop the ones filtered
by `max_dist`, expand the remaining groups, then sort. -/
def GeoNamesSearcher.search_with_dist (s : GeoNamesSearcher)
    (aut : String → Bool) (raw : String) (max_dist : Option Nat) :
    Option (List GeoNamesSearchResultWithDist) :=
  let hits := s.map.filter (fun kv => aut kv.1)
  let kept := hits.filter (fun kv => keepByDist max_dist (levenshtein raw kv.1))
  (mapOpt (fun kv => expandHitWithDist s kv.1 kv.2 (levenshtein raw kv.1))
      kept).map
    (fun rss => sortResultsWithDist rss.flatten)

/-! ## Ingestion (`src/geonames/utils.rs`) -/

/-- Rust `u64::from_str`: optional `+` sign, then one or more digits,
value below `2^64`. -/
def parseDigitsAux : List Char → Nat → Option Nat
  | [], acc => some acc
  | c :: cs, acc =>
    if c.isDigit then parseDigitsAux cs (acc * 10 + (c.toNat - 48)) else none

/-- Digit-run parser helper: `none` on an empty run or a non-digit. -/
def parseDigits : List Char → Option Nat
  | [] => none
  | l => parseDigitsAux l 0

/-- `str::parse::<u64>()`. -/
def parseU64 (s : String) : Option Nat :=
  let core := match s.data with
    | '+' :: rest => parseDigits rest
    | l => parseDigits l
  core.bind (fun n => if n < 2 ^ 64 then some n else none)

/-- `str::parse::<i16>()`: optional sign, digits, within the `i16` range. -/
def parseI16 (s : String) : Option Int :=
  match s.data with
  | '-' :: rest =>
    (parseDigits rest).bind (fun n => if n ≤ 2 ^ 15 then some (-(n : Int)) else none)
  | '+' :: rest =>
    (parseDigits rest).bind (fun n => if n < 2 ^ 15 then some (n : Int) else none)
  | l =>
    (parseDigits l).bind (fun n => if n < 2 ^ 15 then some (n : Int) else none)

/-- `parse_float_else_nan`: a missing column is NaN; present column text
is kept symbolically (its `f32` value, NaN on parse failure, is never
inspected by any claim). -/
def parse_float_else_nan (s : Option String) : FloatRepr :=
  match s with
  | none => FloatRepr.nan
  | some str => FloatRepr.raw str

/-- Body of the `parse_geonames_file` row loop: mandatory columns 0-2
(identifier, name, ASCII name), lenient remainder; returns the identifier,
the Entry Store record, and the emitted `(term, provenance)` pairs (the
ASCII pair first and only when it differs from the canonical name). -/
def parseGeoRow (record : List String) :
    Except String (Nat × GeoNamesEntry × List (String × MatchType)) :=
  match record[0]? with
  | none => .error "no geoname_id"
  | some idStr =>
    match parseU64 idStr with
    | none => .error "invalid digit found in string"
    | some id =>
      match record[1]? with
      | none => .error "no name"
      | some name =>
        match record[2]? with
        | none => .error "no ascii name"
        | some name_ascii =>
          let entry : GeoNamesEntry :=
            { id := id
              name := name
              latitude := parse_float_else_nan record[4]?
              longitude := parse_float_else_nan record[5]?
              feature_class := (record[6]?).getD "<missing>"
              feature_code := (record[7]?).getD "<missing>"
              country_code := (record[8]?).getD "<missing>"
              adm1 := (record[10]?).getD ""
              adm2 := (record[11]?).getD ""
              adm3 := (record[12]?).getD ""
              adm4 := (record[13]?).getD ""
              elevation := (record[15]?).bind parseI16 }
          let rowPairs :=
            (if name_ascii ≠ name then [(name_ascii, MatchType.AsciiName id)] else [])
              ++ [(name, MatchType.Name id)]
          .ok (id, entry, rowPairs)

/-- `parse_geonames_file`: threads the accumulated pairs and the Entry
Store over the rows of one file; any row failure aborts the whole parse. -/
def parse_geonames_file :
    List (List String) → List (String × MatchType) → EntryMap →
    Except String (List (String × MatchType) × EntryMap)
  | [], pairs, gns => .ok (pairs, gns)
  | row :: rest, pairs, gns =>
    match parseGeoRow row with
    | .error e => .error e
    | .ok (id, entry, rowPairs) =>
      parse_geonames_file rest (pairs ++ rowPairs) (entryInsert gns id entry)

/-- The flag-combination match of `parse_alternate_names_file` (lines
167-183 of `utils.rs`): maps the four booleans to exactly one provenance,
with `Alternate` as the catch-all. -/
def classifyAlternate (id : Nat) (lang name validFrom validTo : String)
    (preferred shrt colloquial historic : Bool) : String × MatchType :=
  match preferred, shrt, colloquial, historic with
  | true, false, false, false => (name, MatchType.PreferredName id lang)
  | false, true, false, false => (name, MatchType.ShortName id lang)
  | false, false, true, false => (name, MatchType.Colloquial id lang)
  | false, false, false, true => (name, MatchType.Historic id lang validFrom validTo)
  | _, _, _, _ => (name, MatchType.Alternate id lang)

/-- Body of the `parse_alternate_names_file` row loop. `.ok none` is the
`continue` of a skipped row (language not selected, or owning identifier
unknown); flags are the literal string `"1"`; the historic validity
columns default to the empty string when absent. -/
def parseAltRow (record : List String) (geonames : EntryMap)
    (include_languages : Option (List String)) :
    Except String (Option (String × MatchType)) :=
  match record[2]? with
  | none => .error "no language"
  | some lang =>
    if (match include_languages with
        | some set => !(set.contains lang)
        | none => false) then
      .ok none
    else
      match record[1]? with
      | none => .error "no geoname_id"
      | some idStr =>
        match parseU64 idStr with
        | none => .error "invalid digit found in string"
        | some id =>
          if !(entryContains geonames id) then .ok none
          else
            match record[3]? with
            | none => .error "no name"
            | some name =>
              match record[4]? with
              | none => .error "no preferred"
              | some pr =>
                match record[5]? with
                | none => .error "no short"
                | some sh =>
                  match record[6]? with
                  | none => .error "no colloquial"
                  | some co =>
                    match record[7]? with
                    | none => .error "no historic"
                    | some hi =>
                      .ok (some (classifyAlternate id lang name
                        ((record[8]?).getD "") ((record[9]?).getD "")
                        (pr == "1") (sh == "1") (co == "1") (hi == "1")))

/-- `parse_alternate_names_file`: appends one pair per accepted row; the
Entry Store is read-only here. -/
def parse_alternate_names_file :
    List (List String) → List (String × MatchType) → EntryMap →
    Option (List String) → Except String (List (String × MatchType))
  | [], pairs, _, _ => .ok pairs
  | row :: rest, pairs, gns, langs =>
    match parseAltRow row gns langs with
    | .error e => .error e
    | .ok none => parse_alternate_names_file rest pairs gns langs
    | .ok (some p) => parse_alternate_names_file rest (pairs ++ [p]) gns langs

/-! ## Index building (`GeoNamesSearcher::build`) -/

/-- `search_matches.last_mut().unwrap().push(mtch)`: `none` marks the
panic on an empty vector. -/
def pushLast : List (List MatchType) → MatchType → Option (List (List MatchType))
  | [], _ => none
  | [g], m => some [g ++ [m]]
  | g :: gs, m => (pushLast gs m).map (fun r => g :: r)

/-- The grouping pass of `build` (lines 113-128 of `searcher.rs`): skip
empty terms; append the provenance to the last group when the term repeats
the previous one; otherwise start a new term with a singleton group. -/
def prepareTerms :
    List (String × MatchType) → String → List String → List (List MatchType) →
    Option (List String × List (List MatchType))
  | [], _, terms, groups => some (terms, groups)
  | (term, mtch) :: rest, last_term, terms, groups =>
    if term = "" then prepareTerms rest last_term terms groups
    else if term = last_term then
      match pushLast groups mtch with
      | none => none
      | some ms => prepareTerms rest term terms ms
    else prepareTerms rest term (terms ++ [term]) (groups ++ [[mtch]])

/-- The `(key, ordinal)` pairs inserted by the enumerate-insert loop of
`build`, starting at ordinal `k`. -/
def fstMapAux (k : Nat) : List String → FstMap
  | [] => []
  | t :: ts => (t, k) :: fstMapAux (k + 1) ts

/-- The finished `fst::Map` contents for a term list. -/
def fstMap (terms : List String) : FstMap := fstMapAux 0 terms

/-- Strict bytewise ascent of the key sequence: the condition under which
every `MapBuilder::insert` in the loop succeeds. -/
def strictAscending : List String → Bool
  | [] => true
  | [_] => true
  | a :: b :: rest => strLt a b && strictAscending (b :: rest)

/-- The `MapBuilder` loop of `build`: inserting the enumerated terms
fails (the `unwrap` of `build.insert`) unless the keys are strictly
ascending bytewise. -/
def buildFst (terms : List String) : Except String FstMap :=
  if strictAscending terms then .ok (fstMap terms)
  else .error "MapBuilder insert out of order"

/-- `query_pairs.sort_by(|a, b| a.0.cmp(&b.0))`: the order compares the
term only. -/
def pairLe (a b : String × MatchType) : Prop := strLe a.1 b.1 = true

instance : DecidableRel pairLe :=
  fun a b => inferInstanceAs (Decidable (_ = true))

/-- The stable sort of the query pairs by term (Rust `sort_by` is stable;
insertion sort is the canonical stable sort). -/
def sortQueryPairs (l : List (String × MatchType)) : List (String × MatchType) :=
  List.insertionSort pairLe l

/-- The primary-file loop of `build`. -/
def parsePrimaryFiles :
    List (List (List String)) → List (String × MatchType) → EntryMap →
    Except String (List (String × MatchType) × EntryMap)
  | [], pairs, gns => .ok (pairs, gns)
  | f :: fs, pairs, gns =>
    match parse_geonames_file f pairs gns with
    | .error e => .error e
    | .ok (p, g) => parsePrimaryFiles fs p g

/-- The alternate-file loop of `build`. -/
def parseAlternateFiles :
    List (List (List String)) → List (String × MatchType) → EntryMap →
    Option (List String) → Except String (List (String × MatchType))
  | [], pairs, _, _ => .ok pairs
  | f :: fs, pairs, gns, langs =>
    match parse_alternate_names_file f pairs gns langs with
    | .error e => .error e
    | .ok p => parseAlternateFiles fs p gns langs

/-- `GeoNamesSearcher::build`: parse primary files, optionally parse
alternate files, stable-sort the pairs by term, run the grouping pass,
and build the FST over the unique terms. -/
def build (gn_paths : List (List (List String)))
    (gn_alternate_paths : Option (List (List (List String))))
    (gn_alternate_languages : Option (List String)) :
    Except String GeoNamesSearcher :=
  match parsePrimaryFiles gn_paths [] [] with
  | .error e => .error e
  | .ok (pairs0, geonames) =>
    match (match gn_alternate_paths with
           | none => Except.ok pairs0
           | some fs => parseAlternateFiles fs pairs0 geonames gn_alternate_languages) with
    | .error e => .error e
    | .ok pairs =>
      match prepareTerms (sortQueryPairs pairs) "" [] [] with
      | none => .error "panic: search_matches was empty"
      | some (search_terms, search_matches) =>
        match buildFst search_terms with
        | .error e => .error e
        | .ok map => .ok ⟨map, geonames, search_matches⟩

/-! ## Route layer (`src/routes/*.rs`) -/

/-- Result filter options (`FilterResults` of `routes/mod.rs`). -/
structure FilterResults where
  feature_class : Option String
  feature_code : Option String
  country_code : Option String
deriving DecidableEq, Repr

/-- `filter_results`: three sequential `retain` passes, one per supplied
attribute, exact string equality; generic over the entry projection
(the `Entry` trait). -/
def filterResultsBy {T : Type} (entryOf : T → GeoNamesEntry)
    (results : List T) (filter : Option FilterResults) : List T :=
  match filter with
  | none => results
  | some f =>
    let r1 := match f.feature_class with
      | none => results
      | some fc => results.filter (fun x => (entryOf x).feature_class == fc)
    let r2 := match f.feature_code with
      | none => r1
      | some fc => r1.filter (fun x => (entryOf x).feature_code == fc)
    match f.country_code with
    | none => r2
    | some cc => r2.filter (fun x => (entryOf x).country_code == cc)

/-- HTTP status outcomes used by the five handlers. -/
inductive StatusCode where
  | OK
  | BAD_REQUEST
  | NOT_ACCEPTABLE
deriving DecidableEq, Repr

/-- The response envelope (`Response` of `routes/mod.rs`). -/
inductive Response where
  | Results (rs : List GeoNamesSearchResult)
  | ResultsWithDist (rs : List GeoNamesSearchResultWithDist)
  | Error (msg : String)
deriving DecidableEq, Repr

/-- `Str::new(query).starts_with()`: accepts the keys having the query as
a prefix. -/
def startsWithAut (q : String) : String → Bool :=
  fun key => q.data.isPrefixOf key.data

/-- Boolean subsequence test (state of the `Subsequence` automaton is the
count of query characters matched so far). -/
def isSubseqB : List Char → List Char → Bool
  | [], _ => true
  | _ :: _, [] => false
  | a :: as, b :: bs => if a == b then isSubseqB as bs else isSubseqB (a :: as) bs

/-- `Subsequence::new(query)`: accepts the keys containing the query as a
not-necessarily-contiguous subsequence. -/
def subsequenceAut (q : String) : String → Bool :=
  fun key => isSubseqB q.data key.data

/-- Modelled from the spec: the acceptance predicate of the fst crate's
bounded Levenshtein automaton (its implementation is not under `src/`);
per section 4.4 of the spec it accepts exactly the keys within edit
distance `d` of the query. -/
def levenshteinAut (q : String) (d : Nat) : String → Bool :=
  fun key => decide (levenshtein q key ≤ d)

/-- Error of the fst crate's Levenshtein construction. -/
inductive LevenshteinError where
  | TooManyStates
deriving DecidableEq, Repr

/-- Debug rendering of `LevenshteinError`. -/
def levErrorName : LevenshteinError → String
  | .TooManyStates => "TooManyStates"

/-- Modelled from the spec: `Levenshtein::new_with_limit` of the fst
crate (not under `src/`) fails with a distinct limit-exceeded error
exactly when the theoretical automaton state count for the query and
distance — abstracted here as the caller-supplied `stateCount` value —
exceeds the given limit; otherwise construction succeeds. -/
def levenshteinNewWithLimit (stateCount limit : Nat) :
    Except LevenshteinError Unit :=
  if limit < stateCount then .error .TooManyStates else .ok ()

/-- Modelled from the spec: `Levenshtein::new` of the fst crate uses a
default state limit of 10,000. -/
def levenshteinNew (stateCount : Nat) : Except LevenshteinError Unit :=
  levenshteinNewWithLimit stateCount 10000

/-- `levenshtein_inner` of `routes/levenshtein.rs`: max distance defaults
to 1; an explicit state limit selects `new_with_limit`, otherwise `new`;
a construction error is returned to the caller, otherwise the searcher is
queried and the result filtered.  `stateCount` abstracts the fst crate's
state-count function for a query and distance. -/
def levenshtein_inner (searcher : GeoNamesSearcher)
    (stateCount : String → Nat → Nat) (query : String)
    (state_limit : Option Nat) (max_dist : Option Nat)
    (filter : Option FilterResults) :
    Except LevenshteinError (Option (List GeoNamesSearchResultWithDist)) :=
  let distance := max_dist.getD 1
  let constructed := match state_limit with
    | some lim => levenshteinNewWithLimit (stateCount query distance) lim
    | none => levenshteinNew (stateCount query distance)
  match constructed with
  | .error e => .error e
  | .ok _ =>
    .ok ((searcher.search_with_dist (levenshteinAut query distance) query
        max_dist).map
      (fun rs => filterResultsBy GeoNamesSearchResultWithDist.entry rs filter))

/-- `find` handler (`routes/find.rs`). -/
def findRoute (s : GeoNamesSearcher) (query : String)
    (filter : Option FilterResults) : Option (StatusCode × Response) :=
  if query.isEmpty then some (.BAD_REQUEST, .Error "Empty query")
  else (s.find query).map
    (fun rs => (.OK, .Results (filterResultsBy GeoNamesSearchResult.entry rs filter)))

/-- `starts_with` handler (`routes/starts_with.rs`); its `max_dist` is a
plain `u32` defaulting to 0, always passed as `Some`. -/
def startsWithRoute (s : GeoNamesSearcher) (query : String) (max_dist : Nat)
    (filter : Option FilterResults) : Option (StatusCode × Response) :=
  if query.isEmpty then some (.BAD_REQUEST, .Error "Empty query")
  else (s.search_with_dist (startsWithAut query) query (some max_dist)).map
    (fun rs => (.OK, .ResultsWithDist
      (filterResultsBy GeoNamesSearchResultWithDist.entry rs filter)))

/-- `fuzzy` handler (`routes/fuzzy.rs`). -/
def fuzzyRoute (s : GeoNamesSearcher) (query : String) (max_dist : Nat)
    (filter : Option FilterResults) : Option (StatusCode × Response) :=
  if query.isEmpty then some (.BAD_REQUEST, .Error "Empty query")
  else (s.search_with_dist (subsequenceAut query) query (some max_dist)).map
    (fun rs => (.OK, .ResultsWithDist
      (filterResultsBy GeoNamesSearchResultWithDist.entry rs filter)))

/-- `levenshtein` handler (`routes/levenshtein.rs`). -/
def levenshteinRoute (s : GeoNamesSearcher) (stateCount : String → Nat → Nat)
    (query : String) (max_dist : Option Nat) (state_limit : Option Nat)
    (filter : Option FilterResults) : Option (StatusCode × Response) :=
  if query.isEmpty then some (.BAD_REQUEST, .Error "Empty query")
  else
    match levenshtein_inner s stateCount query state_limit max_dist filter with
    | .ok ors => ors.map (fun rs => (.OK, .ResultsWithDist rs))
    | .error e => some (.NOT_ACCEPTABLE, .Error ("LevenshteinError: " ++ levErrorName e))

/-- `regex` handler (`routes/regex.rs`); `compile` abstracts the external
`regex_automata` DFA compilation (pattern to byte automaton, or an error
for an invalid pattern). -/
def regexRoute (s : GeoNamesSearcher)
    (compile : String → Except String (String → Bool)) (re : String)
    (filter : Option FilterResults) : Option (StatusCode × Response) :=
  if re.isEmpty then some (.BAD_REQUEST, .Error "Empty query")
  else
    match compile re with
    | .ok aut => (s.search aut).map
        (fun rs => (.OK, .Results (filterResultsBy GeoNamesSearchResult.entry rs filter)))
    | .error e => some (.BAD_REQUEST, .Error ("RegexError: " ++ e))

/-! ## Order lemmas -/

theorem natCmp_eq_lt {a b : Nat} : natCmp a b = .lt ↔ a < b := by
  unfold natCmp; split_ifs <;> simp_all <;> omega

theorem natCmp_eq_eq {a b : Nat} : natCmp a b = .eq ↔ a = b := by
  unfold natCmp; split_ifs <;> simp_all <;> omega

theorem natCmp_ne_gt {a b : Nat} : natCmp a b ≠ .gt ↔ a ≤ b := by
  unfold natCmp; split_ifs <;> simp_all <;> omega

theorem then_ne_gt {o p : Ordering} :
    o.then p ≠ .gt ↔ (o = .lt ∨ (o = .eq ∧ p ≠ .gt)) := by
  cases o <;> simp [Ordering.then]

theorem charListLt_irrefl : ∀ l : List Char, charListLt l l = false := by
  intro l
  induction l with
  | nil => rfl
  | cons a as ih => simp [charListLt, ih]

theorem charListLt_trans : ∀ {a b c : List Char},
    charListLt a b = true → charListLt b c = true → charListLt a c = true := by
  intro a
  induction a with
  | nil =>
    intro b c hab hbc
    cases b with
    | nil => simp [charListLt] at hab
    | cons y ys =>
      cases c with
      | nil => simp [charListLt] at hbc
      | cons z zs => simp [charListLt]
  | cons x xs ih =>
    intro b c hab hbc
    cases b with
    | nil => simp [charListLt] at hab
    | cons y ys =>
      cases c with
      | nil => simp [charListLt] at hbc
      | cons z zs =>
        simp only [charListLt, Bool.or_eq_true, Bool.and_eq_true,
          decide_eq_true_iff, beq_iff_eq] at hab hbc ⊢
        rcases hab with h1 | ⟨rfl, h1⟩
        · rcases hbc with h2 | ⟨rfl, h2⟩
          · exact Or.inl (lt_trans h1 h2)
          · exact Or.inl h1
        · rcases hbc with h2 | ⟨rfl, h2⟩
          · exact Or.inl h2
          · exact Or.inr ⟨rfl, ih h1 h2⟩

theorem charListLt_trichotomy : ∀ a b : List Char,
    charListLt a b = true ∨ a = b ∨ charListLt b a = true := by
  intro a
  induction a with
  | nil =>
    intro b
    cases b with
    | nil => exact Or.inr (Or.inl rfl)
    | cons y ys => exact Or.inl (by simp [charListLt])
  | cons x xs ih =>
    intro b
    cases b with
    | nil => exact Or.inr (Or.inr (by simp [charListLt]))
    | cons y ys =>
      rcases lt_trichotomy x y with h | rfl | h
      · exact Or.inl (by simp [charListLt, h])
      · rcases ih ys with h | rfl | h
        · exact Or.inl (by simp [charListLt, h])
        · exact Or.inr (Or.inl rfl)
        · exact Or.inr (Or.inr (by simp [charListLt, h]))
      · exact Or.inr (Or.inr (by simp [charListLt, h]))

theorem strLt_irrefl (a : String) : strLt a a = false := by
  simp [strLt, charListLt_irrefl]

theorem strLt_trans {a b c : String} (h1 : strLt a b = true)
    (h2 : strLt b c = true) : strLt a c = true :=
  charListLt_trans h1 h2

theorem strLt_ne {a b : String} (h : strLt a b = true) : a ≠ b := by
  rintro rfl
  simp [strLt_irrefl] at h

theorem strLe_iff {a b : String} : strLe a b = true ↔ strLt a b = true ∨ a = b := by
  simp [strLe, beq_iff_eq]

theorem strLe_refl (a : String) : strLe a a = true := strLe_iff.mpr (Or.inr rfl)

theorem strLe_total (a b : String) : strLe a b = true ∨ strLe b a = true := by
  rcases charListLt_trichotomy a.data b.data with h | h | h
  · exact Or.inl (strLe_iff.mpr (Or.inl h))
  · exact Or.inl (strLe_iff.mpr (Or.inr (String.ext h)))
  · exact Or.inr (strLe_iff.mpr (Or.inl h))

theorem strLe_trans {a b c : String} (h1 : strLe a b = true)
    (h2 : strLe b c = true) : strLe a c = true := by
  rcases strLe_iff.mp h1 with h1 | rfl
  · rcases strLe_iff.mp h2 with h2 | rfl
    · exact strLe_iff.mpr (Or.inl (strLt_trans h1 h2))
    · exact strLe_iff.mpr (Or.inl h1)
  · exact h2

theorem strLt_of_strLe_of_ne {a b : String} (h : strLe a b = true)
    (hne : a ≠ b) : strLt a b = true := by
  rcases strLe_iff.mp h with h | rfl
  · exact h
  · exact absurd rfl hne

theorem strLt_of_strLe_of_strLt {a b c : String} (h1 : strLe a b = true)
    (h2 : strLt b c = true) : strLt a c = true := by
  rcases strLe_iff.mp h1 with h1 | rfl
  · exact strLt_trans h1 h2
  · exact h2

theorem strLe_empty_left (a : String) : strLe "" a = true := by
  rcases charListLt_trichotomy "".data a.data with h | h | h
  · exact strLe_iff.mpr (Or.inl h)
  · exact strLe_iff.mpr (Or.inr (String.ext h))
  · cases ha : a.data with
    | nil => exact strLe_iff.mpr (Or.inr (String.ext (by simp [ha])))
    | cons c cs => rw [ha] at h; simp [charListLt] at h

/-! Characterisations of the result comparators as lexicographic orders. -/

theorem resultLe_iff {a b : GeoNamesSearchResult} :
    resultLe a b ↔ (a.key.typ.rank < b.key.typ.rank ∨
      (a.key.typ.rank = b.key.typ.rank ∧ a.key.typ.id ≤ b.key.typ.id)) := by
  unfold resultLe GeoNamesSearchResult.cmp MatchKey.cmp MatchType.cmp
  rw [then_ne_gt]
  simp [natCmp_eq_lt, natCmp_eq_eq, natCmp_ne_gt]

theorem resultWithDistLe_iff {a b : GeoNamesSearchResultWithDist} :
    resultWithDistLe a b ↔ (a.distance < b.distance ∨
      (a.distance = b.distance ∧ (a.key.typ.rank < b.key.typ.rank ∨
        (a.key.typ.rank = b.key.typ.rank ∧ a.key.typ.id ≤ b.key.typ.id)))) := by
  unfold resultWithDistLe GeoNamesSearchResultWithDist.cmp MatchKey.cmp MatchType.cmp
  rw [then_ne_gt, then_ne_gt]
  simp [natCmp_eq_lt, natCmp_eq_eq, natCmp_ne_gt]

instance : IsTotal GeoNamesSearchResult resultLe :=
  ⟨fun a b => by rw [resultLe_iff, resultLe_iff]; omega⟩

instance : IsTrans GeoNamesSearchResult resultLe :=
  ⟨fun a b c hab hbc => by
    rw [resultLe_iff] at hab hbc ⊢; omega⟩

instance : IsTotal GeoNamesSearchResultWithDist resultWithDistLe :=
  ⟨fun a b => by rw [resultWithDistLe_iff, resultWithDistLe_iff]; omega⟩

instance : IsTrans GeoNamesSearchResultWithDist resultWithDistLe :=
  ⟨fun a b c hab hbc => by
    rw [resultWithDistLe_iff] at hab hbc ⊢; omega⟩

instance : IsTotal (String × MatchType) pairLe :=
  ⟨fun a b => strLe_total a.1 b.1⟩

instance : IsTrans (String × MatchType) pairLe :=
  ⟨fun _ _ _ hab hbc => strLe_trans hab hbc⟩

/-! Stability of the pair sort: pairs with any fixed term keep their
relative input order. -/

theorem filter_key_orderedInsert (p : String × MatchType)
    (l : List (String × MatchType)) (t : String) :
    (List.orderedInsert pairLe p l).filter (fun q => q.1 == t)
      = if p.1 = t then p :: l.filter (fun q => q.1 == t)
        else l.filter (fun q => q.1 == t) := by
  induction l with
  | nil =>
    by_cases hp : p.1 = t <;>
      simp [List.orderedInsert, List.filter_cons, beq_iff_eq, hp]
  | cons b bs ih =>
    by_cases hle : pairLe p b
    · by_cases hp : p.1 = t <;>
        simp [List.orderedInsert, hle, List.filter_cons, hp]
    · by_cases hp : p.1 = t
      · have hb : ¬ (b.1 = t) := by
          intro hb
          exact hle (show strLe p.1 b.1 = true by rw [hp, hb]; exact strLe_refl t)
        simp [List.orderedInsert, hle, List.filter_cons, hb, ih, hp]
      · by_cases hb : b.1 = t <;>
          simp [List.orderedInsert, hle, List.filter_cons, hb, ih, hp]

theorem sortQueryPairs_filter_key (l : List (String × MatchType)) (t : String) :
    (sortQueryPairs l).filter (fun q => q.1 == t) = l.filter (fun q => q.1 == t) := by
  unfold sortQueryPairs
  induction l with
  | nil => rfl
  | cons p ps ih =>
    simp only [List.insertionSort]
    rw [filter_key_orderedInsert]
    by_cases hp : p.1 = t <;> simp [List.filter_cons, beq_iff_eq, hp, ih]

/-! ## The grouping-pass invariant -/

/-- The flattening of parallel term/group lists back into `(term,
provenance)` pairs, in stored order. -/
def zipJoin (ts : List String) (gs : List (List MatchType)) :
    List (String × MatchType) :=
  (ts.zip gs).flatMap (fun tg => tg.2.map (fun m => (tg.1, m)))

theorem zipJoin_nil : zipJoin [] [] = [] := rfl

theorem zipJoin_cons {t : String} {ts : List String} {g : List MatchType}
    {gs : List (List MatchType)} :
    zipJoin (t :: ts) (g :: gs) = g.map (fun m => (t, m)) ++ zipJoin ts gs := by
  simp [zipJoin]

theorem zipJoin_concat {ts : List String} {gs : List (List MatchType)}
    (h : ts.length = gs.length) (t : String) (g : List MatchType) :
    zipJoin (ts ++ [t]) (gs ++ [g]) = zipJoin ts gs ++ g.map (fun m => (t, m)) := by
  unfold zipJoin
  rw [List.zip_append h]
  simp

theorem zipJoin_mem_fst {ts : List String} {gs : List (List MatchType)}
    {p : String × MatchType} (h : p ∈ zipJoin ts gs) : p.1 ∈ ts := by
  unfold zipJoin at h
  simp only [List.mem_flatMap, List.mem_map] at h
  obtain ⟨tg, htg, m, _, rfl⟩ := h
  exact List.of_mem_zip htg |>.1

theorem pushLast_isSome : ∀ (gs : List (List MatchType)) (m : MatchType),
    gs ≠ [] → ∃ gs', pushLast gs m = some gs' := by
  intro gs
  induction gs with
  | nil => intro m h; exact absurd rfl h
  | cons g rest ih =>
    intro m _
    cases rest with
    | nil => exact ⟨[g ++ [m]], rfl⟩
    | cons g₂ rest₂ =>
      obtain ⟨gs₂, hgs₂⟩ := ih m (by simp)
      exact ⟨g :: gs₂, by simp [pushLast, hgs₂]⟩

theorem pushLast_ne_nil : ∀ (gs : List (List MatchType)) (m : MatchType)
    (gs' : List (List MatchType)), pushLast gs m = some gs' →
    (∀ g ∈ gs, g ≠ []) → ∀ g ∈ gs', g ≠ [] := by
  intro gs
  induction gs with
  | nil => intro m gs' h; simp [pushLast] at h
  | cons g rest ih =>
    intro m gs' h hne
    cases rest with
    | nil =>
      simp [pushLast] at h
      subst h
      simp
    | cons g₂ rest₂ =>
      cases hpp : pushLast (g₂ :: rest₂) m with
      | none => simp [pushLast, hpp] at h
      | some gs₂ =>
        have : gs' = g :: gs₂ := by
          simp [pushLast, hpp] at h
          exact h.symm
        subst this
        intro x hx
        rcases List.mem_cons.mp hx with rfl | hx
        · exact hne x (by simp)
        · exact ih m gs₂ hpp (fun y hy => hne y (by simp [hy])) x hx

theorem zipJoin_pushLast : ∀ (gs : List (List MatchType)) (ts : List String)
    (t : String) (m : MatchType) (gs' : List (List MatchType)),
    ts.length = gs.length → ts.getLast? = some t → pushLast gs m = some gs' →
    zipJoin ts gs' = zipJoin ts gs ++ [(t, m)] ∧ gs'.length = gs.length := by
  intro gs
  induction gs with
  | nil => intro ts t m gs' _ _ hp; simp [pushLast] at hp
  | cons g rest ih =>
    intro ts t m gs' hlen hlast hp
    cases ts with
    | nil => simp at hlen
    | cons t₀ ts' =>
      cases rest with
      | nil =>
        cases ts' with
        | cons a as => simp at hlen
        | nil =>
          simp [pushLast] at hp
          subst hp
          simp [List.getLast?] at hlast
          subst hlast
          constructor
          · simp [zipJoin]
          · simp
      | cons g₂ rest₂ =>
        cases ts' with
        | nil => simp at hlen
        | cons t₁ ts'' =>
          cases hpp : pushLast (g₂ :: rest₂) m with
          | none => simp [pushLast, hpp] at hp
          | some gs₂ =>
            have hp' : gs' = g :: gs₂ := by
              simp [pushLast, hpp] at hp
              exact hp.symm
            have hlast' : (t₁ :: ts'').getLast? = some t := by
              simpa using hlast
            obtain ⟨hz, hl⟩ := ih (t₁ :: ts'') t m gs₂ (by simpa using hlen) hlast' hpp
            subst hp'
            refine ⟨?_, by simp [hl]⟩
            rw [zipJoin_cons, zipJoin_cons, hz, List.append_assoc]

/-- Main invariant of the grouping pass, by induction over the remaining
pairs: the pass cannot panic, term and group lists stay parallel, their
flattening extends by exactly the non-empty-termed pairs in order, the
term list stays strictly ascending, free of empty strings, and all groups
stay non-empty. -/
theorem prepareTerms_spec : ∀ (ps : List (String × MatchType)) (lt : String)
    (ts : List String) (gs : List (List MatchType)),
    ts.length = gs.length →
    (lt ≠ "" → ts.getLast? = some lt) →
    List.Pairwise pairLe ps →
    (∀ p ∈ ps, strLe lt p.1 = true) →
    List.Pairwise (fun a b => strLt a b = true) ts →
    (∀ x ∈ ts, strLe x lt = true) →
    (∀ x ∈ ts, x ≠ "") →
    (∀ g ∈ gs, g ≠ []) →
    ∃ ts' gs', prepareTerms ps lt ts gs = some (ts', gs') ∧
      ts'.length = gs'.length ∧
      zipJoin ts' gs' = zipJoin ts gs ++ ps.filter (fun p => !(p.1 == "")) ∧
      List.Pairwise (fun a b => strLt a b = true) ts' ∧
      (∀ x ∈ ts', x ≠ "") ∧
      (∀ g ∈ gs', g ≠ []) := by
  intro ps
  induction ps with
  | nil =>
    intro lt ts gs h1 _ _ _ h6 _ h8 h9
    exact ⟨ts, gs, rfl, h1, by simp, h6, h8, h9⟩
  | cons hd rest ih =>
    obtain ⟨term, m⟩ := hd
    intro lt ts gs h1 h2 h4 h5 h6 h7 h8 h9
    by_cases hterm : term = ""
    · subst hterm
      obtain ⟨ts', gs', hrun, hc⟩ :=
        ih lt ts gs h1 h2 (List.pairwise_cons.mp h4).2
          (fun p hp => h5 p (by simp [hp])) h6 h7 h8 h9
      refine ⟨ts', gs', ?_, ?_⟩
      · simpa [prepareTerms] using hrun
      · simpa [List.filter_cons] using hc
    · by_cases heq : term = lt
      · subst heq
        have hts_ne : ts.getLast? = some term := h2 hterm
        have hts_nonempty : ts ≠ [] := by
          intro h
          rw [h] at hts_ne
          simp at hts_ne
        have hgs_nonempty : gs ≠ [] := by
          intro h
          rw [h] at h1
          simp at h1
          exact hts_nonempty h1
        obtain ⟨gs₂, hpp⟩ := pushLast_isSome gs m hgs_nonempty
        obtain ⟨hz, hlen2⟩ := zipJoin_pushLast gs ts term m gs₂ h1 hts_ne hpp
        obtain ⟨ts', gs', hrun, hl, hzj, hc⟩ :=
          ih term ts gs₂ (h1.trans hlen2.symm) h2 (List.pairwise_cons.mp h4).2
            (fun p hp => (List.pairwise_cons.mp h4).1 p hp) h6 h7 h8
            (pushLast_ne_nil gs m gs₂ hpp h9)
        refine ⟨ts', gs', ?_, hl, ?_, hc⟩
        · simpa [prepareTerms, hterm, hpp] using hrun
        · rw [hzj, hz, List.filter_cons]
          simp [hterm, List.append_assoc]
      · have hlt_term : strLt lt term = true :=
          strLt_of_strLe_of_ne (h5 (term, m) (by simp))
            (fun h => heq h.symm)
        have hts_all_lt : ∀ x ∈ ts, strLt x term = true := fun x hx =>
          strLt_of_strLe_of_strLt (h7 x hx) hlt_term
        obtain ⟨ts', gs', hrun, hl, hzj, hc⟩ :=
          ih term (ts ++ [term]) (gs ++ [[m]]) (by simp [h1])
            (fun _ => List.getLast?_concat ts)
            (List.pairwise_cons.mp h4).2
            (fun p hp => (List.pairwise_cons.mp h4).1 p hp)
            (by
              rw [List.pairwise_append]
              exact ⟨h6, by simp, by simpa using hts_all_lt⟩)
            (by
              intro x hx
              rcases List.mem_append.mp hx with hx | hx
              · exact strLe_iff.mpr (Or.inl (hts_all_lt x hx))
              · simp at hx
                subst hx
                exact strLe_refl x)
            (by
              intro x hx
              rcases List.mem_append.mp hx with hx | hx
              · exact h8 x hx
              · simp at hx
                subst hx
                exact hterm)
            (by
              intro g hg
              rcases List.mem_append.mp hg with hg | hg
              · exact h9 g hg
              · simp at hg
                subst hg
                simp)
        refine ⟨ts', gs', ?_, hl, ?_, hc⟩
        · simpa [prepareTerms, hterm, heq] using hrun
        · rw [hzj, zipJoin_concat h1, List.filter_cons]
          simp [hterm, List.append_assoc]

/-! ## FST construction lemmas -/

theorem strictAscending_of_pairwise : ∀ {l : List String},
    List.Pairwise (fun a b => strLt a b = true) l → strictAscending l = true := by
  intro l
  induction l with
  | nil => intro; rfl
  | cons a rest ih =>
    intro h
    cases rest with
    | nil => rfl
    | cons b r2 =>
      obtain ⟨hrel, htail⟩ := List.pairwise_cons.mp h
      simp [strictAscending, hrel b (by simp), ih htail]

theorem mapGet_cons {t : String} {v : Nat} {rest : FstMap} {key : String} :
    mapGet ((t, v) :: rest) key = if t = key then some v else mapGet rest key := by
  simp only [mapGet, List.find?]
  by_cases h : t = key
  · simp [h]
  · have hb : (t == key) = false := by simpa using h
    simp [h, hb]

theorem mapGet_fstMapAux : ∀ (ts : List String) (k i : Nat)
    (hi : i < ts.length), ts.Nodup →
    mapGet (fstMapAux k ts) (ts.get ⟨i, hi⟩) = some (k + i) := by
  intro ts
  induction ts with
  | nil => intro k i hi; simp at hi
  | cons t rest ih =>
    intro k i hi hnd
    cases i with
    | zero => simp [fstMapAux, mapGet_cons]
    | succ j =>
      have hj : j < rest.length := by simpa using hi
      have htne : t ≠ rest.get ⟨j, hj⟩ := by
        intro h
        exact (List.nodup_cons.mp hnd).1 (h ▸ List.get_mem rest j hj)
      have ihg := ih (k + 1) j hj (List.nodup_cons.mp hnd).2
      have hget : (t :: rest).get ⟨j + 1, hi⟩ = rest.get ⟨j, hj⟩ := rfl
      rw [hget, show fstMapAux k (t :: rest) = (t, k) :: fstMapAux (k + 1) rest from rfl,
        mapGet_cons, if_neg htne, ihg]
      congr 1
      omega

theorem fstMapAux_value_lt : ∀ (ts : List String) (k : Nat) (key : String)
    (v : Nat), mapGet (fstMapAux k ts) key = some v → v < k + ts.length := by
  intro ts
  induction ts with
  | nil => intro k key v h; simp [fstMapAux, mapGet] at h
  | cons t rest ih =>
    intro k key v h
    rw [show fstMapAux k (t :: rest) = (t, k) :: fstMapAux (k + 1) rest from rfl,
      mapGet_cons] at h
    by_cases ht : t = key
    · rw [if_pos ht] at h
      simp only [Option.some_inj] at h
      simp only [List.length_cons]
      omega
    · rw [if_neg ht] at h
      have := ih (k + 1) key v h
      simp only [List.length_cons]
      omega

/-! ## `mapOpt` lemmas -/

theorem mapOpt_isSome_of {f : α → Option β} : ∀ {l : List α},
    (∀ a ∈ l, (f a).isSome = true) → (mapOpt f l).isSome = true := by
  intro l
  induction l with
  | nil => intro; rfl
  | cons a as ih =>
    intro h
    have ha := h a (by simp)
    obtain ⟨b, hb⟩ := Option.isSome_iff_exists.mp ha
    obtain ⟨bs, hbs⟩ := Option.isSome_iff_exists.mp (ih (fun x hx => h x (by simp [hx])))
    simp [mapOpt, hb, hbs]

theorem mapOpt_mem {f : α → Option β} : ∀ {l : List α} {ys : List β},
    mapOpt f l = some ys → ∀ y ∈ ys, ∃ x ∈ l, f x = some y := by
  intro l
  induction l with
  | nil =>
    intro ys h y hy
    simp [mapOpt] at h
    subst h
    simp at hy
  | cons a as ih =>
    intro ys h y hy
    cases hfa : f a with
    | none => simp [mapOpt, hfa] at h
    | some b =>
      cases hrest : mapOpt f as with
      | none => simp [mapOpt, hfa, hrest] at h
      | some bs =>
        simp [mapOpt, hfa, hrest] at h
        subst h
        rcases List.mem_cons.mp hy with rfl | hy
        · exact ⟨a, by simp, hfa⟩
        · obtain ⟨x, hx, hfx⟩ := ih hrest y hy
          exact ⟨x, by simp [hx], hfx⟩

theorem mapOpt_mem_rev {f : α → Option β} : ∀ {l : List α} {ys : List β},
    mapOpt f l = some ys → ∀ x ∈ l, ∃ y ∈ ys, f x = some y := by
  intro l
  induction l with
  | nil => intro ys _ x hx; simp at hx
  | cons a as ih =>
    intro ys h x hx
    cases hfa : f a with
    | none => simp [mapOpt, hfa] at h
    | some b =>
      cases hrest : mapOpt f as with
      | none => simp [mapOpt, hfa, hrest] at h
      | some bs =>
        simp [mapOpt, hfa, hrest] at h
        subst h
        rcases List.mem_cons.mp hx with rfl | hx
        · exact ⟨b, by simp, hfa⟩
        · obtain ⟨y, hy, hfy⟩ := ih hrest x hx
          exact ⟨y, by simp [hy], hfy⟩

/-! ## Shapes of expanded hits -/

theorem expandHitWithDist_shape {s : GeoNamesSearcher} {k : String}
    {gnd dist : Nat} {rs : List GeoNamesSearchResultWithDist}
    (h : expandHitWithDist s k gnd dist = some rs) :
    ∀ r ∈ rs, r.key.name = k ∧ r.distance = dist := by
  intro r hr
  unfold expandHitWithDist at h
  cases hms : s.searchMatches[gnd]? with
  | none => rw [hms] at h; exact absurd h (by simp)
  | some ms =>
    rw [hms] at h
    obtain ⟨typ, _, htyp⟩ := mapOpt_mem h r hr
    cases hget : entryGet s.geonames typ.id with
    | none => rw [hget] at htyp; exact absurd htyp (by simp)
    | some gn =>
      rw [hget] at htyp
      have hr' : r = ⟨⟨k, typ⟩, gn, dist⟩ := by
        simpa using htyp.symm
      subst hr'
      exact ⟨rfl, rfl⟩

/-! ## Filtering `zipJoin` at one term -/

theorem zipJoin_filter_get : ∀ (ts : List String) (gs : List (List MatchType)),
    ts.length = gs.length → List.Pairwise (fun a b => strLt a b = true) ts →
    ∀ (i : Nat) (hi : i < ts.length) (hgi : i < gs.length),
    (zipJoin ts gs).filter (fun p => p.1 == ts.get ⟨i, hi⟩) =
      (gs.get ⟨i, hgi⟩).map (fun m => (ts.get ⟨i, hi⟩, m)) := by
  intro ts
  induction ts with
  | nil => intro gs _ _ i hi; simp at hi
  | cons t ts' ih =>
    intro gs hlen hpw i hi hgi
    cases gs with
    | nil => simp at hlen
    | cons g gs' =>
      obtain ⟨hhead, htail⟩ := List.pairwise_cons.mp hpw
      cases i with
      | zero =>
        have hget0 : (t :: ts').get ⟨0, hi⟩ = t := rfl
        have hget0g : (g :: gs').get ⟨0, hgi⟩ = g := rfl
        have h1 : (g.map (fun m => (t, m))).filter (fun p => p.1 == t)
            = g.map (fun m => (t, m)) := by
          rw [List.filter_eq_self]
          intro x hx
          obtain ⟨m, _, rfl⟩ := List.mem_map.mp hx
          simp
        have h2 : (zipJoin ts' gs').filter (fun p => p.1 == t) = [] := by
          rw [List.filter_eq_nil_iff]
          intro x hx
          have hxm := zipJoin_mem_fst hx
          have hne := strLt_ne (hhead x.1 hxm)
          simp only [beq_iff_eq]
          exact fun hc => hne hc.symm
        rw [hget0, hget0g, zipJoin_cons, List.filter_append, h1, h2,
          List.append_nil]
      | succ j =>
        have hj : j < ts'.length := by simpa using hi
        have hgj : j < gs'.length := by simpa using hgi
        have hget : (t :: ts').get ⟨j + 1, hi⟩ = ts'.get ⟨j, hj⟩ := rfl
        have h1 : (g.map (fun m => (t, m))).filter
            (fun p => p.1 == ts'.get ⟨j, hj⟩) = [] := by
          rw [List.filter_eq_nil_iff]
          intro x hx
          obtain ⟨m, _, rfl⟩ := List.mem_map.mp hx
          have := strLt_ne (hhead (ts'.get ⟨j, hj⟩) (List.get_mem ts' j hj))
          simpa [beq_iff_eq] using this
        rw [hget, zipJoin_cons, List.filter_append, h1, List.nil_append]
        exact ih gs' (by simpa using hlen) htail j hj hgj

theorem filter_nonempty_key {t : String} (ht : t ≠ "")
    (l : List (String × MatchType)) :
    (l.filter (fun p => !(p.1 == ""))).filter (fun p => p.1 == t) =
      l.filter (fun p => p.1 == t) := by
  rw [List.filter_filter]
  apply List.filter_congr
  intro p _
  by_cases hp : p.1 = t
  · simp [hp, ht]
  · simp [hp]

/-! ## Claim theorems -/

/-- C1: the Term Index Builder stable-sorts the concatenated pairs by
term bytewise ascending (the sorted list is an ordered permutation of the
input in which pairs of any fixed term keep their input order), then in a
single pass skips empty-termed pairs, groups equal adjacent terms, and
otherwise starts new singleton groups; the flattening of the parallel
term/group lists reproduces exactly the sorted non-empty-termed pairs,
`group[i]` holds exactly the provenances of `unique_term[i]` for every
`i`, and the FST construction succeeds and maps each unique term to its
ordinal `i`. -/
theorem C1_term_index_builder (qs : List (String × MatchType))
    (terms : List String) (groups : List (List MatchType))
    (h : prepareTerms (sortQueryPairs qs) "" [] [] = some (terms, groups)) :
    List.Pairwise pairLe (sortQueryPairs qs) ∧
    (sortQueryPairs qs).Perm qs ∧
    (∀ t, (sortQueryPairs qs).filter (fun p => p.1 == t)
      = qs.filter (fun p => p.1 == t)) ∧
    terms.length = groups.length ∧
    zipJoin terms groups = (sortQueryPairs qs).filter (fun p => !(p.1 == "")) ∧
    (∀ x ∈ terms, x ≠ "") ∧
    List.Pairwise (fun a b => strLt a b = true) terms ∧
    (∀ (i : Nat) (hi : i < terms.length) (hgi : i < groups.length),
      groups.get ⟨i, hgi⟩ =
        ((sortQueryPairs qs).filter
          (fun p => p.1 == terms.get ⟨i, hi⟩)).map Prod.snd) ∧
    buildFst terms = .ok (fstMap terms) ∧
    (∀ (i : Nat) (hi : i < terms.length),
      mapGet (fstMap terms) (terms.get ⟨i, hi⟩) = some i) := by
  have hsorted : List.Pairwise pairLe (sortQueryPairs qs) :=
    List.sorted_insertionSort pairLe qs
  obtain ⟨ts', gs', hrun, hlen, hzj, hpw, hne, hgne⟩ :=
    prepareTerms_spec (sortQueryPairs qs) "" [] [] rfl
      (fun hc => absurd rfl hc) hsorted
      (fun p _ => strLe_empty_left p.1) (by simp) (by simp) (by simp) (by simp)
  have heq : (ts', gs') = (terms, groups) := by
    have := hrun.symm.trans h
    simpa using this
  have heq1 : terms = ts' := (congrArg Prod.fst heq).symm
  have heq2 : groups = gs' := (congrArg Prod.snd heq).symm
  cases heq1
  cases heq2
  have hzj' : zipJoin terms groups
      = (sortQueryPairs qs).filter (fun p => !(p.1 == "")) := by
    simpa [zipJoin_nil] using hzj
  have hnodup : terms.Nodup :=
    hpw.imp (fun hab => strLt_ne hab)
  refine ⟨hsorted, List.perm_insertionSort pairLe qs,
    fun t => sortQueryPairs_filter_key qs t, hlen, hzj', hne, hpw, ?_, ?_, ?_⟩
  · intro i hi hgi
    have htne : terms.get ⟨i, hi⟩ ≠ "" := hne _ (List.get_mem terms i hi)
    have hf := zipJoin_filter_get terms groups hlen hpw i hi hgi
    rw [hzj', filter_nonempty_key htne] at hf
    rw [hf, List.map_map]
    simp
  · simp [buildFst, strictAscending_of_pairwise hpw]
  · intro i hi
    simpa using mapGet_fstMapAux terms 0 i hi hnodup

/-- Witness for C1 at a concrete pair list containing an empty term, a
duplicated term, and distinct terms. -/
theorem C1_term_index_builder_witness :
    prepareTerms
      (sortQueryPairs [("b", MatchType.Name 2), ("a", MatchType.Name 1),
        ("", MatchType.Name 3), ("a", MatchType.AsciiName 1)]) "" [] []
      = some (["a", "b"],
          [[MatchType.Name 1, MatchType.AsciiName 1], [MatchType.Name 2]]) ∧
    zipJoin ["a", "b"]
        [[MatchType.Name 1, MatchType.AsciiName 1], [MatchType.Name 2]]
      = (sortQueryPairs [("b", MatchType.Name 2), ("a", MatchType.Name 1),
          ("", MatchType.Name 3), ("a", MatchType.AsciiName 1)]).filter
          (fun p => !(p.1 == "")) :=
  ⟨rfl, (C1_term_index_builder
    [("b", MatchType.Name 2), ("a", MatchType.Name 1), ("", MatchType.Name 3),
      ("a", MatchType.AsciiName 1)]
    ["a", "b"] [[MatchType.Name 1, MatchType.AsciiName 1], [MatchType.Name 2]]
    rfl).2.2.2.2.1⟩

theorem MatchType.cmp_self (m : MatchType) : MatchType.cmp m m = .eq := by
  simp [MatchType.cmp, natCmp, Ordering.then]

/-- Concrete fixture entry with identifier 1 and term "ab". -/
def entryA : GeoNamesEntry :=
  ⟨1, "ab", .nan, .nan, "P", "PPL", "DE", "", "", "", "", none⟩

/-- Concrete fixture entry with identifier 2 and term "b". -/
def entryB : GeoNamesEntry :=
  ⟨2, "b", .nan, .nan, "T", "MT", "FR", "", "", "", "", none⟩

/-- Concrete fixture searcher over the two fixture entries. -/
def searcherAB : GeoNamesSearcher :=
  ⟨[("ab", 0), ("b", 1)], [(1, entryA), (2, entryB)],
    [[.Name 1], [.Alternate 2 "de"]]⟩

/-- C4: whenever `search` returns (does not panic), its output is a
permutation of the concatenated group expansions of all accepted keys,
sorted by provenance rank ascending then record identifier ascending; the
comparator ignores the matched term string entirely. -/
theorem C4_search_order (s : GeoNamesSearcher) (aut : String → Bool)
    (rs : List GeoNamesSearchResult) (h : s.search aut = some rs) :
    (∃ acc, mapOpt (fun kv => expandHit s kv.1 kv.2)
        (s.map.filter (fun kv => aut kv.1)) = some acc ∧
      rs.Perm acc.flatten) ∧
    List.Pairwise (fun a b : GeoNamesSearchResult =>
      a.key.typ.rank < b.key.typ.rank ∨
        (a.key.typ.rank = b.key.typ.rank ∧ a.key.typ.id ≤ b.key.typ.id)) rs ∧
    (∀ a b : GeoNamesSearchResult, a.key.typ = b.key.typ →
      GeoNamesSearchResult.cmp a b = Ordering.eq) := by
  unfold GeoNamesSearcher.search at h
  obtain ⟨acc, hacc, hsort⟩ := Option.map_eq_some'.mp h
  subst hsort
  refine ⟨⟨acc, hacc, List.perm_insertionSort resultLe acc.flatten⟩, ?_, ?_⟩
  · exact (List.sorted_insertionSort resultLe acc.flatten).imp
      (fun hab => resultLe_iff.mp hab |>.imp id id)
  · intro a b htyp
    show MatchKey.cmp a.key b.key = Ordering.eq
    unfold MatchKey.cmp
    rw [htyp]
    exact MatchType.cmp_self b.key.typ

/-- Witness for C4: on the fixture searcher with the all-accepting
automaton the expansion is reordered so that the `Name` provenance
precedes the `Alternate` one. -/
theorem C4_search_order_witness :
    searcherAB.search (fun _ => true) =
      some [⟨⟨"ab", .Name 1⟩, entryA⟩, ⟨⟨"b", .Alternate 2 "de"⟩, entryB⟩] ∧
    List.Pairwise (fun a b : GeoNamesSearchResult =>
      a.key.typ.rank < b.key.typ.rank ∨
        (a.key.typ.rank = b.key.typ.rank ∧ a.key.typ.id ≤ b.key.typ.id))
      [⟨⟨"ab", .Name 1⟩, entryA⟩, ⟨⟨"b", .Alternate 2 "de"⟩, entryB⟩] :=
  ⟨rfl, (C4_search_order searcherAB (fun _ => true)
    [⟨⟨"ab", .Name 1⟩, entryA⟩, ⟨⟨"b", .Alternate 2 "de"⟩, entryB⟩] rfl).2.1⟩

/-- C3: whenever `search_with_dist` returns, every result's distance is
the Levenshtein distance between the raw query and its matched key;
`max_dist = Some d` with `d > 0` bounds every returned distance by `d`;
`max_dist = None` and `max_dist = Some 0` produce identical output; and
the output is sorted by distance ascending, then by Match Key order. -/
theorem C3_search_with_dist_spec (s : GeoNamesSearcher) (aut : String → Bool)
    (raw : String) (md : Option Nat) (rs : List GeoNamesSearchResultWithDist)
    (h : s.search_with_dist aut raw md = some rs) :
    (∀ r ∈ rs, r.distance = levenshtein raw r.key.name) ∧
    (∀ d, md = some d → 0 < d → ∀ r ∈ rs, r.distance ≤ d) ∧
    (s.search_with_dist aut raw none = s.search_with_dist aut raw (some 0)) ∧
    List.Pairwise (fun a b : GeoNamesSearchResultWithDist =>
      a.distance < b.distance ∨ (a.distance = b.distance ∧
        (a.key.typ.rank < b.key.typ.rank ∨
          (a.key.typ.rank = b.key.typ.rank ∧ a.key.typ.id ≤ b.key.typ.id)))) rs := by
  unfold GeoNamesSearcher.search_with_dist at h
  obtain ⟨acc, hacc, hsort⟩ := Option.map_eq_some'.mp h
  subst hsort
  have hmem : ∀ r ∈ sortResultsWithDist acc.flatten,
      ∃ kv ∈ (s.map.filter (fun kv => aut kv.1)).filter
          (fun kv => keepByDist md (levenshtein raw kv.1)),
        r.key.name = kv.1 ∧ r.distance = levenshtein raw kv.1 := by
    intro r hr
    have hr' : r ∈ acc.flatten :=
      (List.perm_insertionSort resultWithDistLe acc.flatten).subset hr
    obtain ⟨block, hblock, hrb⟩ := List.mem_flatten.mp hr'
    obtain ⟨kv, hkv, hF⟩ := mapOpt_mem hacc block hblock
    obtain ⟨hname, hdist⟩ := expandHitWithDist_shape hF r hrb
    exact ⟨kv, hkv, hname, hdist⟩
  refine ⟨?_, ?_, ?_, ?_⟩
  · intro r hr
    obtain ⟨kv, _, hname, hdist⟩ := hmem r hr
    rw [hdist, hname]
  · rintro d rfl hd r hr
    obtain ⟨kv, hkv, _, hdist⟩ := hmem r hr
    have hkeep := (List.mem_filter.mp hkv).2
    simp only [keepByDist, Bool.not_eq_eq_eq_not, Bool.not_true,
      Bool.and_eq_false_imp, decide_eq_true_eq, decide_eq_false_iff_not] at hkeep
    rw [hdist]
    omega
  · simp [GeoNamesSearcher.search_with_dist, keepByDist]
  · exact (List.sorted_insertionSort resultWithDistLe acc.flatten).imp
      (fun hab => by
        have := resultWithDistLe_iff.mp hab
        tauto)

/-- Witness for C3 on the fixture searcher: raw query "ab" at
`max_dist = Some 1` keeps both keys with their true distances 0 and 1. -/
theorem C3_search_with_dist_spec_witness :
    searcherAB.search_with_dist (fun _ => true) "ab" (some 1) =
      some [⟨⟨"ab", .Name 1⟩, entryA, 0⟩, ⟨⟨"b", .Alternate 2 "de"⟩, entryB, 1⟩] ∧
    (∀ r ∈ [(⟨⟨"ab", .Name 1⟩, entryA, 0⟩ : GeoNamesSearchResultWithDist),
        ⟨⟨"b", .Alternate 2 "de"⟩, entryB, 1⟩],
      r.distance = levenshtein "ab" r.key.name) :=
  ⟨rfl, (C3_search_with_dist_spec searcherAB (fun _ => true) "ab" (some 1)
    [⟨⟨"ab", .Name 1⟩, entryA, 0⟩, ⟨⟨"b", .Alternate 2 "de"⟩, entryB, 1⟩]
    rfl).1⟩

/-- C6 fails as stated at the boundary `d = 0`: the code treats
`max_dist = Some 0` as "no filtering", so its result set is a strict
superset, not a subset, of the one for `max_dist = Some 1`.  Concretely,
the raw query "zzzz" on the fixture searcher returns both keys (distance
4 each) at distance 0 but nothing at distance 1. -/
theorem C6_counterexample :
    ¬ (∀ r ∈ (searcherAB.search_with_dist (fun _ => true) "zzzz"
          (some 0)).getD [],
        r ∈ (searcherAB.search_with_dist (fun _ => true) "zzzz"
          (some 1)).getD []) := by
  decide

/-- C6 (amended): distance filtering is monotonic in `max_distance` on
the positive range: for `0 < d ≤ d-prime`, every result returned at
distance bound `d` is also returned at bound `d-prime` (for the same
query and automaton); the bound 0 — like an absent bound — disables
filtering altogether and so is excluded from the subset relation. -/
theorem C6_dist_filter_mono (s : GeoNamesSearcher) (aut : String → Bool)
    (raw : String) (d d' : Nat) (hd : 0 < d) (hdd : d ≤ d')
    (rs rs' : List GeoNamesSearchResultWithDist)
    (h : s.search_with_dist aut raw (some d) = some rs)
    (h' : s.search_with_dist aut raw (some d') = some rs') :
    ∀ r ∈ rs, r ∈ rs' := by
  unfold GeoNamesSearcher.search_with_dist at h h'
  obtain ⟨acc, hacc, hsort⟩ := Option.map_eq_some'.mp h
  obtain ⟨acc', hacc', hsort'⟩ := Option.map_eq_some'.mp h'
  subst hsort
  subst hsort'
  intro r hr
  have hr' : r ∈ acc.flatten :=
    (List.perm_insertionSort resultWithDistLe acc.flatten).subset hr
  obtain ⟨block, hblock, hrb⟩ := List.mem_flatten.mp hr'
  obtain ⟨kv, hkv, hF⟩ := mapOpt_mem hacc block hblock
  obtain ⟨hhit, hkeep⟩ := List.mem_filter.mp hkv
  have hkeep' : keepByDist (some d') (levenshtein raw kv.1) = true := by
    simp only [keepByDist, Bool.not_eq_eq_eq_not, Bool.not_true,
      Bool.and_eq_false_imp, decide_eq_true_eq, decide_eq_false_iff_not] at hkeep ⊢
    omega
  have hkv' : kv ∈ (s.map.filter (fun kv => aut kv.1)).filter
      (fun kv => keepByDist (some d') (levenshtein raw kv.1)) :=
    List.mem_filter.mpr ⟨hhit, hkeep'⟩
  obtain ⟨block', hblock', hF'⟩ := mapOpt_mem_rev hacc' kv hkv'
  have hbb : block' = block := by
    have := hF.symm.trans hF'
    simpa using this.symm
  subst hbb
  have : r ∈ acc'.flatten := List.mem_flatten.mpr ⟨block', hblock', hrb⟩
  exact ((List.perm_insertionSort resultWithDistLe acc'.flatten).symm.subset) this

/-- Witness for the amended C6 on the fixture searcher: at raw query
"zzzz" both keys (distance 4) returned at bound 4 are also returned at
bound 5. -/
theorem C6_dist_filter_mono_witness :
    0 < 4 ∧ 4 ≤ 5 ∧
    searcherAB.search_with_dist (fun _ => true) "zzzz" (some 4) =
      some [⟨⟨"ab", .Name 1⟩, entryA, 4⟩, ⟨⟨"b", .Alternate 2 "de"⟩, entryB, 4⟩] ∧
    (∀ r ∈ [(⟨⟨"ab", .Name 1⟩, entryA, 4⟩ : GeoNamesSearchResultWithDist),
        ⟨⟨"b", .Alternate 2 "de"⟩, entryB, 4⟩],
      r ∈ [(⟨⟨"ab", .Name 1⟩, entryA, 4⟩ : GeoNamesSearchResultWithDist),
        ⟨⟨"b", .Alternate 2 "de"⟩, entryB, 4⟩]) :=
  ⟨by decide, by decide, rfl,
    C6_dist_filter_mono searcherAB (fun _ => true) "zzzz" 4 5 (by decide)
      (by decide) _ _ rfl rfl⟩

/-- C2: the four alternate-name flags select exactly one provenance by
exclusive pattern — only-preferred, only-short, only-colloquial,
only-historic (carrying the validity columns, empty when absent) — and
every other combination falls through to `Alternate`; an accepted row is
never an error, its pair being appended via this classification with the
validity columns defaulted to the empty string. -/
theorem C2_alternate_flag_classification :
    (∀ (id : Nat) (lang name vf vt : String),
      classifyAlternate id lang name vf vt true false false false
        = (name, MatchType.PreferredName id lang) ∧
      classifyAlternate id lang name vf vt false true false false
        = (name, MatchType.ShortName id lang) ∧
      classifyAlternate id lang name vf vt false false true false
        = (name, MatchType.Colloquial id lang) ∧
      classifyAlternate id lang name vf vt false false false true
        = (name, MatchType.Historic id lang vf vt) ∧
      (∀ pr sh co hi : Bool,
        ¬ (pr = true ∧ sh = false ∧ co = false ∧ hi = false) →
        ¬ (pr = false ∧ sh = true ∧ co = false ∧ hi = false) →
        ¬ (pr = false ∧ sh = false ∧ co = true ∧ hi = false) →
        ¬ (pr = false ∧ sh = false ∧ co = false ∧ hi = true) →
        classifyAlternate id lang name vf vt pr sh co hi
          = (name, MatchType.Alternate id lang))) ∧
    (∀ (record : List String) (gns : EntryMap) (langs : Option (List String))
        (lang idStr : String) (id : Nat) (name f4 f5 f6 f7 : String),
      record[2]? = some lang →
      (match langs with
        | some set => set.contains lang
        | none => true) = true →
      record[1]? = some idStr → parseU64 idStr = some id →
      entryContains gns id = true →
      record[3]? = some name → record[4]? = some f4 → record[5]? = some f5 →
      record[6]? = some f6 → record[7]? = some f7 →
      parseAltRow record gns langs = .ok (some (classifyAlternate id lang name
        ((record[8]?).getD "") ((record[9]?).getD "")
        (f4 == "1") (f5 == "1") (f6 == "1") (f7 == "1")))) := by
  constructor
  · intro id lang name vf vt
    refine ⟨rfl, rfl, rfl, rfl, ?_⟩
    intro pr sh co hi h1 h2 h3 h4
    cases pr <;> cases sh <;> cases co <;> cases hi <;>
      simp_all [classifyAlternate]
  · intro record gns langs lang idStr id name f4 f5 f6 f7
      hlang hchk hid hpu hcont hname hf4 hf5 hf6 hf7
    cases langs with
    | none =>
      simp [parseAltRow, hlang, hid, hpu, hcont, hname, hf4, hf5, hf6, hf7]
    | some set =>
      have hcs : set.contains lang = true := by simpa using hchk
      simp [parseAltRow, hlang, hcs, hid, hpu, hcont, hname, hf4, hf5, hf6, hf7]
      simpa using hcs

/-- Witness for C2: a concrete only-historic row with identifier known to
the Entry Store is classified as `Historic` with its validity range. -/
theorem C2_alternate_flag_classification_witness :
    parseAltRow ["x", "1", "de", "Foo", "0", "0", "0", "1", "1900", "1950"]
      [(1, entryA)] none
      = .ok (some ("Foo", MatchType.Historic 1 "de" "1900" "1950")) :=
  C2_alternate_flag_classification.2
    ["x", "1", "de", "Foo", "0", "0", "0", "1", "1900", "1950"]
    [(1, entryA)] none "de" "1" 1 "Foo" "0" "0" "0" "1"
    rfl rfl rfl rfl rfl rfl rfl rfl rfl rfl

/-- The distance filter removes nothing once the bounded-distance
automaton has already restricted the hits to distance at most `d`. -/
theorem search_with_dist_levAut_noFilter (s : GeoNamesSearcher) (q : String)
    (d : Nat) :
    s.search_with_dist (levenshteinAut q d) q none
      = s.search_with_dist (levenshteinAut q d) q (some d) := by
  have h1 : (s.map.filter (fun kv => levenshteinAut q d kv.1)).filter
        (fun kv => keepByDist none (levenshtein q kv.1))
      = s.map.filter (fun kv => levenshteinAut q d kv.1) :=
    List.filter_eq_self.mpr (fun kv _ => rfl)
  have h2 : (s.map.filter (fun kv => levenshteinAut q d kv.1)).filter
        (fun kv => keepByDist (some d) (levenshtein q kv.1))
      = s.map.filter (fun kv => levenshteinAut q d kv.1) := by
    apply List.filter_eq_self.mpr
    intro kv hkv
    have haut := (List.mem_filter.mp hkv).2
    simp only [levenshteinAut, decide_eq_true_eq] at haut
    simp only [keepByDist, Bool.not_eq_eq_eq_not, Bool.not_true,
      Bool.and_eq_false_imp, decide_eq_true_eq, decide_eq_false_iff_not]
    omega
  simp only [GeoNamesSearcher.search_with_dist]
  rw [h1, h2]

/-- C5: `levenshtein_inner` defaults an omitted max distance to 1 and an
omitted state limit to 10,000; when the (abstracted) automaton state
count for the query and effective distance exceeds the limit, it returns
the distinct limit-exceeded error — never a truncated result set — and a
sufficient limit always yields a successful construction. -/
theorem C5_levenshtein_limits (s : GeoNamesSearcher)
    (sc : String → Nat → Nat) (q : String) (f : Option FilterResults) :
    (∀ sl, levenshtein_inner s sc q sl none f
      = levenshtein_inner s sc q sl (some 1) f) ∧
    (∀ md, levenshtein_inner s sc q none md f
      = levenshtein_inner s sc q (some 10000) md f) ∧
    (∀ lim md, lim < sc q (md.getD 1) →
      levenshtein_inner s sc q (some lim) md f = .error .TooManyStates) ∧
    (∀ lim md, sc q (md.getD 1) ≤ lim →
      ∃ res, levenshtein_inner s sc q (some lim) md f = .ok res) := by
  refine ⟨?_, ?_, ?_, ?_⟩
  · intro sl
    unfold levenshtein_inner
    simp only [Option.getD_none, Option.getD_some]
    rw [search_with_dist_levAut_noFilter]
  · intro md
    rfl
  · intro lim md hlt
    simp [levenshtein_inner, levenshteinNewWithLimit, hlt]
  · intro lim md hle
    exact ⟨(s.search_with_dist (levenshteinAut q (md.getD 1)) q md).map
        (fun rs => filterResultsBy GeoNamesSearchResultWithDist.entry rs f),
      by simp [levenshtein_inner, levenshteinNewWithLimit, Nat.not_lt.mpr hle]⟩

/-- Witness for C5 with a concrete state-count function: the limit 3 is
exceeded (distinct error), the limit 10 is sufficient (success). -/
theorem C5_levenshtein_limits_witness :
    (3 < (fun (q : String) (d : Nat) => q.length * (d + 1)) "ab" 1 ∧
      levenshtein_inner searcherAB
        (fun q d => q.length * (d + 1)) "ab" (some 3) none none
        = .error .TooManyStates) ∧
    ((fun (q : String) (d : Nat) => q.length * (d + 1)) "ab" 1 ≤ 10 ∧
      ∃ res, levenshtein_inner searcherAB
        (fun q d => q.length * (d + 1)) "ab" (some 10) none none
        = .ok res) :=
  ⟨⟨by decide,
    (C5_levenshtein_limits searcherAB (fun q d => q.length * (d + 1)) "ab"
      none).2.2.1 3 none (by decide)⟩,
   ⟨by decide,
    (C5_levenshtein_limits searcherAB (fun q d => q.length * (d + 1)) "ab"
      none).2.2.2 10 none (by decide)⟩⟩

/-- C7: each of the five handlers answers the empty query with the
client-input error (`400 Bad Request`, "Empty query") without touching
the index. -/
theorem C7_empty_query_rejected :
    (∀ (s : GeoNamesSearcher) (f : Option FilterResults),
      findRoute s "" f = some (.BAD_REQUEST, .Error "Empty query")) ∧
    (∀ (s : GeoNamesSearcher) (d : Nat) (f : Option FilterResults),
      startsWithRoute s "" d f = some (.BAD_REQUEST, .Error "Empty query")) ∧
    (∀ (s : GeoNamesSearcher) (d : Nat) (f : Option FilterResults),
      fuzzyRoute s "" d f = some (.BAD_REQUEST, .Error "Empty query")) ∧
    (∀ (s : GeoNamesSearcher) (sc : String → Nat → Nat) (md sl : Option Nat)
        (f : Option FilterResults),
      levenshteinRoute s sc "" md sl f
        = some (.BAD_REQUEST, .Error "Empty query")) ∧
    (∀ (s : GeoNamesSearcher) (cp : String → Except String (String → Bool))
        (f : Option FilterResults),
      regexRoute s cp "" f = some (.BAD_REQUEST, .Error "Empty query")) :=
  ⟨fun _ _ => rfl, fun _ _ _ => rfl, fun _ _ _ => rfl,
    fun _ _ _ _ _ => rfl, fun _ _ _ => rfl⟩

/-- C10: only the literally empty query is rejected — any non-empty
query (whitespace-only included) passes the empty-query check of every
endpoint and is used verbatim, with no trimming: `find` and
`starts_with` return exactly the search of the unmodified query string,
and the remaining three endpoints never answer with the empty-query
rejection. -/
theorem C10_only_literal_empty_rejected (q : String) (hq : q ≠ "") :
    (∀ (s : GeoNamesSearcher) (f : Option FilterResults),
      findRoute s q f = (s.find q).map (fun rs =>
        (.OK, .Results (filterResultsBy GeoNamesSearchResult.entry rs f)))) ∧
    (∀ (s : GeoNamesSearcher) (d : Nat) (f : Option FilterResults),
      startsWithRoute s q d f
        = (s.search_with_dist (startsWithAut q) q (some d)).map (fun rs =>
          (.OK, .ResultsWithDist
            (filterResultsBy GeoNamesSearchResultWithDist.entry rs f)))) ∧
    (∀ (s : GeoNamesSearcher) (d : Nat) (f : Option FilterResults),
      fuzzyRoute s q d f
        = (s.search_with_dist (subsequenceAut q) q (some d)).map (fun rs =>
          (.OK, .ResultsWithDist
            (filterResultsBy GeoNamesSearchResultWithDist.entry rs f)))) ∧
    (∀ (s : GeoNamesSearcher) (sc : String → Nat → Nat) (md sl : Option Nat)
        (f : Option FilterResults),
      levenshteinRoute s sc q md sl f
        ≠ some (.BAD_REQUEST, .Error "Empty query")) ∧
    (∀ (s : GeoNamesSearcher) (cp : String → Except String (String → Bool))
        (f : Option FilterResults),
      regexRoute s cp q f ≠ some (.BAD_REQUEST, .Error "Empty query")) := by
  have hqe : q.isEmpty = false := by
    cases hqi : q.isEmpty with
    | false => rfl
    | true => exact absurd ((String.isEmpty_iff q).mp hqi) hq
  have hmsg : ∀ e : String, "RegexError: " ++ e ≠ "Empty query" := by
    intro e h
    have hd := congrArg String.data h
    rw [String.data_append] at hd
    have hl := congrArg List.length hd
    rw [List.length_append] at hl
    have h12 : ("RegexError: ".data).length = 12 := rfl
    have h11 : ("Empty query".data).length = 11 := rfl
    omega
  refine ⟨?_, ?_, ?_, ?_, ?_⟩
  · intro s f
    simp [findRoute, hqe]
  · intro s d f
    simp [startsWithRoute, hqe]
  · intro s d f
    simp [fuzzyRoute, hqe]
  · intro s sc md sl f
    simp only [levenshteinRoute, hqe, Bool.false_eq_true, if_false]
    cases levenshtein_inner s sc q sl md f with
    | ok ors =>
      cases ors with
      | none => simp
      | some rs => simp
    | error e => simp
  · intro s cp f
    simp only [regexRoute, hqe, Bool.false_eq_true, if_false]
    cases cp q with
    | ok aut =>
      cases s.search aut with
      | none => simp
      | some rs => simp
    | error e => simp [hmsg e]

/-- Witness for C10 at the whitespace query " ": it is not rejected and
is looked up verbatim. -/
theorem C10_only_literal_empty_rejected_witness :
    (" " : String) ≠ "" ∧
    findRoute searcherAB " " none = (searcherAB.find " ").map (fun rs =>
      (.OK, .Results (filterResultsBy GeoNamesSearchResult.entry rs none))) :=
  ⟨by decide, (C10_only_literal_empty_rejected " " (by decide)).1 searcherAB none⟩

/-! ## Primary ingestion: duplicate identifiers -/

/-- The `(term, provenance)` pairs one primary row contributes. -/
def rowPairsOf (row : List String) : List (String × MatchType) :=
  match parseGeoRow row with
  | .ok x => x.2.2
  | .error _ => []

/-- The Entry Store record one primary row contributes. -/
def rowEntryOf (row : List String) : Option GeoNamesEntry :=
  match parseGeoRow row with
  | .ok x => some x.2.1
  | .error _ => none

theorem parseGeoRow_ok {row : List String} {id : Nat} {entry : GeoNamesEntry}
    {rps : List (String × MatchType)}
    (h : parseGeoRow row = .ok (id, entry, rps)) :
    entry.id = id ∧ ∀ p ∈ rps, p.2.id = id := by
  unfold parseGeoRow at h
  repeat' split at h
  all_goals try (exact Except.noConfusion h)
  all_goals (
    simp only [Except.ok.injEq, Prod.mk.injEq] at h
    obtain ⟨rfl, rfl, rfl⟩ := h
    refine ⟨rfl, ?_⟩
    intro p hp
    fin_cases hp <;> rfl)

theorem entryGet_insert {gns : EntryMap} {k id : Nat} {e : GeoNamesEntry} :
    entryGet (entryInsert gns k e) id
      = if k = id then some e else entryGet gns id := by
  simp only [entryInsert, entryGet, List.find?]
  by_cases h : k = id
  · simp [h]
  · have hb : (k == id) = false := by simpa using h
    simp [h, hb]

theorem getLast?_cons_or {α : Type} (a : α) (l : List α) :
    (a :: l).getLast? = l.getLast?.or (some a) := by
  cases hl : l.getLast? with
  | none =>
    have : l = [] := by simpa using hl
    subst this
    rfl
  | some x =>
    cases l with
    | nil => simp at hl
    | cons b bs =>
      rw [List.getLast?_cons_cons, hl]
      rfl

/-- Threading of `parse_geonames_file` over its accumulators: the output
pairs extend the input pairs by every row's pairs in order, and a lookup
in the output Entry Store returns the record of the last row carrying
that identifier, falling back to the input store. -/
theorem parse_geonames_file_spec : ∀ (rows : List (List String))
    (pairs0 : List (String × MatchType)) (gns0 : EntryMap)
    (pairs : List (String × MatchType)) (gns : EntryMap),
    parse_geonames_file rows pairs0 gns0 = .ok (pairs, gns) →
    pairs = pairs0 ++ rows.flatMap rowPairsOf ∧
    ∀ id, entryGet gns id =
      (((rows.filterMap rowEntryOf).filter
        (fun e => e.id == id)).getLast?).or (entryGet gns0 id) := by
  intro rows
  induction rows with
  | nil =>
    intro pairs0 gns0 pairs gns h
    simp only [parse_geonames_file, Except.ok.injEq, Prod.mk.injEq] at h
    obtain ⟨rfl, rfl⟩ := h
    exact ⟨by simp, fun id => by simp⟩
  | cons row rest ih =>
    intro pairs0 gns0 pairs gns h
    cases hrow : parseGeoRow row with
    | error e =>
      rw [parse_geonames_file, hrow] at h
      exact Except.noConfusion h
    | ok trip =>
      obtain ⟨id0, entry0, rps0⟩ := trip
      rw [parse_geonames_file, hrow] at h
      obtain ⟨hp, hg⟩ := ih (pairs0 ++ rps0) (entryInsert gns0 id0 entry0)
        pairs gns h
      have hido : entry0.id = id0 := (parseGeoRow_ok hrow).1
      constructor
      · rw [hp, List.flatMap_cons,
          show rowPairsOf row = rps0 from by simp [rowPairsOf, hrow],
          List.append_assoc]
      · intro id
        rw [hg id, entryGet_insert,
          show (row :: rest).filterMap rowEntryOf
            = entry0 :: rest.filterMap rowEntryOf from by
              simp [rowEntryOf, hrow],
          List.filter_cons]
        by_cases hid : id0 = id
        · have hbe : (entry0.id == id) = true := by simp [hido, hid]
          rw [if_pos hid, hbe]
          simp only [if_true]
          rw [getLast?_cons_or, Option.or_assoc]
          rfl
        · have hbe : (entry0.id == id) = false := by simp [hido, hid]
          rw [if_neg hid, hbe]
          simp only [Bool.false_eq_true, if_false]

/-- C9: primary rows sharing an identifier do not fail ingestion and do
not both survive in the Entry Store: the store resolves the identifier to
the record built from the last such row, while the pairs emitted from all
rows (earlier duplicates included) remain in the index input. -/
theorem C9_duplicate_id_last_row_wins (rows : List (List String))
    (pairs : List (String × MatchType)) (gns : EntryMap)
    (h : parse_geonames_file rows [] [] = .ok (pairs, gns)) :
    pairs = rows.flatMap rowPairsOf ∧
    ∀ id, entryGet gns id =
      ((rows.filterMap rowEntryOf).filter (fun e => e.id == id)).getLast? := by
  obtain ⟨hp, hg⟩ := parse_geonames_file_spec rows [] [] pairs gns h
  refine ⟨by simpa using hp, fun id => ?_⟩
  have hnil : entryGet ([] : EntryMap) id = none := rfl
  rw [hg id, hnil, Option.or_none]

/-- Fixture rows: two primary rows with the same identifier 1. -/
def rows9 : List (List String) := [["1", "Foo", "Foo"], ["1", "Bar", "Barx"]]

/-- The record the second fixture row builds. -/
def entryBar9 : GeoNamesEntry :=
  ⟨1, "Bar", .nan, .nan, "<missing>", "<missing>", "<missing>",
    "", "", "", "", none⟩

/-- The record the first fixture row builds. -/
def entryFoo9 : GeoNamesEntry :=
  ⟨1, "Foo", .nan, .nan, "<missing>", "<missing>", "<missing>",
    "", "", "", "", none⟩

/-- Witness for C9: both duplicate rows parse, the pairs of both rows are
kept, and the identifier resolves to the second (last) row's record. -/
theorem C9_duplicate_id_last_row_wins_witness :
    parse_geonames_file rows9 [] []
      = .ok ([("Foo", MatchType.Name 1), ("Barx", MatchType.AsciiName 1),
          ("Bar", MatchType.Name 1)],
        [(1, entryBar9), (1, entryFoo9)]) ∧
    entryGet [(1, entryBar9), (1, entryFoo9)] 1 = some entryBar9 ∧
    [("Foo", MatchType.Name 1), ("Barx", MatchType.AsciiName 1),
        ("Bar", MatchType.Name 1)]
      = rows9.flatMap rowPairsOf :=
  ⟨rfl,
    ((C9_duplicate_id_last_row_wins rows9 _ _ rfl).2 1).trans rfl,
    (C9_duplicate_id_last_row_wins rows9 _ _ rfl).1⟩

/-! ## Identifier closure of the ingestion pipeline -/

theorem classifyAlternate_id (id : Nat) (lang name vf vt : String)
    (pr sh co hi : Bool) :
    (classifyAlternate id lang name vf vt pr sh co hi).2.id = id := by
  cases pr <;> cases sh <;> cases co <;> cases hi <;> rfl

theorem entryContains_insert_mono {gns : EntryMap} {k id : Nat}
    {e : GeoNamesEntry} (h : entryContains gns k = true) :
    entryContains (entryInsert gns id e) k = true := by
  unfold entryContains at h ⊢
  rw [entryGet_insert]
  by_cases hik : id = k
  · simp [hik]
  · simpa [hik] using h

theorem entryContains_insert_self {gns : EntryMap} {k : Nat}
    {e : GeoNamesEntry} : entryContains (entryInsert gns k e) k = true := by
  unfold entryContains
  rw [entryGet_insert, if_pos rfl]
  rfl

theorem parseAltRow_ok_some {record : List String} {gns : EntryMap}
    {langs : Option (List String)} {p : String × MatchType}
    (h : parseAltRow record gns langs = .ok (some p)) :
    entryContains gns p.2.id = true := by
  unfold parseAltRow at h
  repeat' split at h
  all_goals try (exact Except.noConfusion h)
  all_goals simp only [Except.ok.injEq] at h
  all_goals try (exact Option.noConfusion h)
  all_goals (
    have hp := Option.some.inj h
    subst hp
    rw [classifyAlternate_id]
    simp_all)

theorem parse_geonames_file_closure : ∀ (rows : List (List String))
    (pairs0 : List (String × MatchType)) (gns0 : EntryMap)
    (pairs : List (String × MatchType)) (gns : EntryMap),
    parse_geonames_file rows pairs0 gns0 = .ok (pairs, gns) →
    (∀ p ∈ pairs0, entryContains gns0 p.2.id = true) →
    ∀ p ∈ pairs, entryContains gns p.2.id = true := by
  intro rows
  induction rows with
  | nil =>
    intro pairs0 gns0 pairs gns h h0
    simp only [parse_geonames_file, Except.ok.injEq, Prod.mk.injEq] at h
    obtain ⟨rfl, rfl⟩ := h
    exact h0
  | cons row rest ih =>
    intro pairs0 gns0 pairs gns h h0
    cases hrow : parseGeoRow row with
    | error e =>
      rw [parse_geonames_file, hrow] at h
      exact Except.noConfusion h
    | ok trip =>
      obtain ⟨id0, entry0, rps0⟩ := trip
      rw [parse_geonames_file, hrow] at h
      refine ih (pairs0 ++ rps0) (entryInsert gns0 id0 entry0) pairs gns h ?_
      intro p hp
      rcases List.mem_append.mp hp with hp | hp
      · exact entryContains_insert_mono (h0 p hp)
      · have := (parseGeoRow_ok hrow).2 p hp
        rw [this]
        exact entryContains_insert_self

theorem parse_alternate_names_file_closure : ∀ (rows : List (List String))
    (pairs0 : List (String × MatchType)) (gns : EntryMap)
    (langs : Option (List String)) (pairs : List (String × MatchType)),
    parse_alternate_names_file rows pairs0 gns langs = .ok pairs →
    (∀ p ∈ pairs0, entryContains gns p.2.id = true) →
    ∀ p ∈ pairs, entryContains gns p.2.id = true := by
  intro rows
  induction rows with
  | nil =>
    intro pairs0 gns langs pairs h h0
    simp only [parse_alternate_names_file, Except.ok.injEq] at h
    subst h
    exact h0
  | cons row rest ih =>
    intro pairs0 gns langs pairs h h0
    cases hrow : parseAltRow row gns langs with
    | error e =>
      rw [parse_alternate_names_file, hrow] at h
      exact Except.noConfusion h
    | ok op =>
      cases op with
      | none =>
        rw [parse_alternate_names_file, hrow] at h
        exact ih pairs0 gns langs pairs h h0
      | some p0 =>
        rw [parse_alternate_names_file, hrow] at h
        refine ih (pairs0 ++ [p0]) gns langs pairs h ?_
        intro p hp
        rcases List.mem_append.mp hp with hp | hp
        · exact h0 p hp
        · simp only [List.mem_singleton] at hp
          subst hp
          exact parseAltRow_ok_some hrow

theorem parsePrimaryFiles_closure : ∀ (files : List (List (List String)))
    (pairs0 : List (String × MatchType)) (gns0 : EntryMap)
    (pairs : List (String × MatchType)) (gns : EntryMap),
    parsePrimaryFiles files pairs0 gns0 = .ok (pairs, gns) →
    (∀ p ∈ pairs0, entryContains gns0 p.2.id = true) →
    ∀ p ∈ pairs, entryContains gns p.2.id = true := by
  intro files
  induction files with
  | nil =>
    intro pairs0 gns0 pairs gns h h0
    simp only [parsePrimaryFiles, Except.ok.injEq, Prod.mk.injEq] at h
    obtain ⟨rfl, rfl⟩ := h
    exact h0
  | cons f fs ih =>
    intro pairs0 gns0 pairs gns h h0
    cases hf : parse_geonames_file f pairs0 gns0 with
    | error e =>
      rw [parsePrimaryFiles, hf] at h
      exact Except.noConfusion h
    | ok pg =>
      obtain ⟨p1, g1⟩ := pg
      rw [parsePrimaryFiles, hf] at h
      exact ih p1 g1 pairs gns h
        (parse_geonames_file_closure f pairs0 gns0 p1 g1 hf h0)

theorem parseAlternateFiles_closure : ∀ (files : List (List (List String)))
    (pairs0 : List (String × MatchType)) (gns : EntryMap)
    (langs : Option (List String)) (pairs : List (String × MatchType)),
    parseAlternateFiles files pairs0 gns langs = .ok pairs →
    (∀ p ∈ pairs0, entryContains gns p.2.id = true) →
    ∀ p ∈ pairs, entryContains gns p.2.id = true := by
  intro files
  induction files with
  | nil =>
    intro pairs0 gns langs pairs h h0
    simp only [parseAlternateFiles, Except.ok.injEq] at h
    subst h
    exact h0
  | cons f fs ih =>
    intro pairs0 gns langs pairs h h0
    cases hf : parse_alternate_names_file f pairs0 gns langs with
    | error e =>
      rw [parseAlternateFiles, hf] at h
      exact Except.noConfusion h
    | ok p1 =>
      rw [parseAlternateFiles, hf] at h
      exact ih p1 gns langs pairs h
        (parse_alternate_names_file_closure f pairs0 gns langs p1 hf h0)

/-! ## Safety of the built searcher -/

theorem zipJoin_mem_of_group : ∀ (ts : List String)
    (gs : List (List MatchType)), ts.length = gs.length →
    ∀ g ∈ gs, ∀ m ∈ g, ∃ t, (t, m) ∈ zipJoin ts gs := by
  intro ts
  induction ts with
  | nil =>
    intro gs hlen g hg
    cases gs with
    | nil => simp at hg
    | cons _ _ => simp at hlen
  | cons t ts' ih =>
    intro gs hlen g hg m hm
    cases gs with
    | nil => simp at hlen
    | cons g0 gs' =>
      rcases List.mem_cons.mp hg with rfl | hg
      · exact ⟨t, by
          rw [zipJoin_cons]
          exact List.mem_append.mpr (Or.inl (List.mem_map.mpr ⟨m, hm, rfl⟩))⟩
      · obtain ⟨t', ht'⟩ := ih gs' (by simpa using hlen) g hg m hm
        exact ⟨t', by
          rw [zipJoin_cons]
          exact List.mem_append.mpr (Or.inr ht')⟩

theorem fstMapAux_mem_value : ∀ (ts : List String) (k : Nat)
    (kv : String × Nat), kv ∈ fstMapAux k ts → kv.2 < k + ts.length := by
  intro ts
  induction ts with
  | nil => intro k kv h; simp [fstMapAux] at h
  | cons t rest ih =>
    intro k kv h
    rw [show fstMapAux k (t :: rest) = (t, k) :: fstMapAux (k + 1) rest
      from rfl] at h
    rcases List.mem_cons.mp h with rfl | h
    · simp
    · have := ih (k + 1) kv h
      simp only [List.length_cons]
      omega

theorem expandHit_isSome {s : GeoNamesSearcher} {k : String} {gnd : Nat}
    (hlt : gnd < s.searchMatches.length)
    (hids : ∀ g ∈ s.searchMatches, ∀ m ∈ g,
      (entryGet s.geonames m.id).isSome = true) :
    (expandHit s k gnd).isSome = true := by
  unfold expandHit
  rw [List.getElem?_eq_getElem hlt]
  apply mapOpt_isSome_of
  intro typ htyp
  have hc := hids _ (List.getElem_mem hlt) typ htyp
  cases hgt : entryGet s.geonames typ.id with
  | none => rw [hgt] at hc; simp at hc
  | some gn => simp [hgt]

theorem expandHitWithDist_isSome {s : GeoNamesSearcher} {k : String}
    {gnd dist : Nat} (hlt : gnd < s.searchMatches.length)
    (hids : ∀ g ∈ s.searchMatches, ∀ m ∈ g,
      (entryGet s.geonames m.id).isSome = true) :
    (expandHitWithDist s k gnd dist).isSome = true := by
  unfold expandHitWithDist
  rw [List.getElem?_eq_getElem hlt]
  apply mapOpt_isSome_of
  intro typ htyp
  have hc := hids _ (List.getElem_mem hlt) typ htyp
  cases hgt : entryGet s.geonames typ.id with
  | none => rw [hgt] at hc; simp at hc
  | some gn => simp [hgt]

/-- C8: a successfully built searcher satisfies the index invariants —
every ordinal stored in the FST indexes into `search_matches`, every
group is non-empty, every provenance identifier is a key of the Entry
Store — and consequently `find`, `search`, and `search_with_dist` never
panic (never return the `none` that models the slice-index or `unwrap`
panics). -/
theorem C8_build_no_panic (files : List (List (List String)))
    (alts : Option (List (List (List String))))
    (langs : Option (List String)) (s : GeoNamesSearcher)
    (h : build files alts langs = .ok s) :
    (∀ k i, mapGet s.map k = some i → i < s.searchMatches.length) ∧
    (∀ g ∈ s.searchMatches, g ≠ []) ∧
    (∀ g ∈ s.searchMatches, ∀ m ∈ g,
      (entryGet s.geonames m.id).isSome = true) ∧
    (∀ q, (s.find q).isSome = true) ∧
    (∀ aut, (s.search aut).isSome = true) ∧
    (∀ aut raw md, (s.search_with_dist aut raw md).isSome = true) := by
  unfold build at h
  repeat' split at h
  all_goals try (exact Except.noConfusion h)
  rename_i x1 pairs0 gns0 hpf x2 pairs1 halt x3 ts gs hprep x4 m hfst
  have hs : s = ⟨m, gns0, gs⟩ := (Except.ok.inj h).symm
  subst hs
  have hm : m = fstMap ts := by
    unfold buildFst at hfst
    by_cases hsa : strictAscending ts = true
    · rw [if_pos hsa] at hfst
      exact (Except.ok.inj hfst).symm
    · rw [if_neg hsa] at hfst
      exact Except.noConfusion hfst
  subst hm
  -- properties of the grouping pass
  obtain ⟨ts', gs', hrun, hlen, hzj, hpw, hne, hgne⟩ :=
    prepareTerms_spec (sortQueryPairs pairs1) "" [] [] rfl
      (fun hc => absurd rfl hc)
      (List.sorted_insertionSort pairLe pairs1)
      (fun p _ => strLe_empty_left p.1) (by simp) (by simp)
      (by simp) (by simp)
  have heqp : (ts', gs') = (ts, gs) := by
    have := hrun.symm.trans hprep
    simpa using this
  have heq1 : ts = ts' := (congrArg Prod.fst heqp).symm
  have heq2 : gs = gs' := (congrArg Prod.snd heqp).symm
  cases heq1
  cases heq2
  have hzj' : zipJoin ts gs
      = (sortQueryPairs pairs1).filter (fun p => !(p.1 == "")) := by
    simpa [zipJoin_nil] using hzj
  -- identifier closure of the final pairs
  have hclosure : ∀ p ∈ pairs1, entryContains gns0 p.2.id = true := by
    have hprim := parsePrimaryFiles_closure files [] [] pairs0 gns0
      hpf (by simp)
    cases alts with
    | none =>
      have hpp : pairs0 = pairs1 := by simpa using halt
      subst hpp
      exact hprim
    | some fs =>
      have halt' : parseAlternateFiles fs pairs0 gns0 langs = .ok pairs1 := by
        simpa using halt
      exact parseAlternateFiles_closure fs pairs0 gns0 langs pairs1
        halt' hprim
  have hids : ∀ g ∈ gs, ∀ mt ∈ g,
      (entryGet gns0 mt.id).isSome = true := by
    intro g hg mt hmt
    obtain ⟨t, htm⟩ := zipJoin_mem_of_group ts gs hlen g hg mt hmt
    rw [hzj'] at htm
    have hmem : (t, mt) ∈ sortQueryPairs pairs1 :=
      List.mem_of_mem_filter htm
    have : (t, mt) ∈ pairs1 :=
      (List.perm_insertionSort pairLe pairs1).subset hmem
    exact hclosure (t, mt) this
  have hmaplt : ∀ (k : String) (i : Nat),
      mapGet (fstMap ts) k = some i → i < gs.length := by
    intro k i hk
    have := fstMapAux_value_lt ts 0 k i hk
    omega
  have hmemlt : ∀ kv ∈ fstMap ts, kv.2 < gs.length := by
    intro kv hkv
    have := fstMapAux_mem_value ts 0 kv hkv
    omega
  refine ⟨hmaplt, hgne, hids, ?_, ?_, ?_⟩
  · intro q
    show (GeoNamesSearcher.find ⟨fstMap ts, gns0, gs⟩ q).isSome = true
    unfold GeoNamesSearcher.find
    cases hq : mapGet (fstMap ts) q with
    | none => rfl
    | some gnd => exact expandHit_isSome (hmaplt q gnd hq) hids
  · intro aut
    show (GeoNamesSearcher.search ⟨fstMap ts, gns0, gs⟩ aut).isSome = true
    unfold GeoNamesSearcher.search
    rw [Option.isSome_map']
    apply mapOpt_isSome_of
    intro kv hkv
    exact expandHit_isSome (hmemlt kv (List.mem_of_mem_filter hkv)) hids
  · intro aut raw md
    show (GeoNamesSearcher.search_with_dist ⟨fstMap ts, gns0, gs⟩
      aut raw md).isSome = true
    unfold GeoNamesSearcher.search_with_dist
    rw [Option.isSome_map']
    apply mapOpt_isSome_of
    intro kv hkv
    exact expandHitWithDist_isSome
      (hmemlt kv (List.mem_of_mem_filter
        (List.mem_of_mem_filter hkv))) hids

/-- Witness for C8: a one-row build succeeds and its query functions all
return `some`. -/
theorem C8_build_no_panic_witness :
    build [[["1", "Foo", "Foo"]]] none none
      = .ok ⟨[("Foo", 0)], [(1, entryFoo9)], [[MatchType.Name 1]]⟩ ∧
    (∀ q, ((⟨[("Foo", 0)], [(1, entryFoo9)],
      [[MatchType.Name 1]]⟩ : GeoNamesSearcher).find q).isSome = true) :=
  ⟨rfl, (C8_build_no_panic [[["1", "Foo", "Foo"]]] none none
    ⟨[("Foo", 0)], [(1, entryFoo9)], [[MatchType.Name 1]]⟩ rfl).2.2.2.1⟩

end GeoFst
